import Mathlib

/-! # Verification development for TLINDEN/up

A shallow embedding of the Go sources

* `upd/cfg/config.go`     (server configuration post-processing),
* `upctl/lib/client.go`   (upload client: file collection, upload, response handling),
* `upctl/cmd/upload.go`, `upctl/cmd/describe.go` (command line entry points),

followed by theorems about the embedded functions.

Conventions.  A Go `string` is a Lean `String` (text in UTF-8); `len(s)` is
the byte length `String.utf8ByteSize`.  A Go `error` value is a `GoError`, a
nil-able error is `Option GoError`; a function that can also panic ends in an
`Outcome`.  Functions that mutate a receiver return the new value.  Console
output is collected as a list of printed lines.  The file system and the
remote service are parameters (`FileSystem`, `Network`) that answer the
calls the client and its libraries make.  Go `int` has 64 bits.
-/

set_option autoImplicit false

/-! ## Go runtime vocabulary shared by all packages -/

/-- Byte length of a Go string, the builtin `len`. -/
def len (s : String) : Nat := s.utf8ByteSize

/-- Go `strings.HasPrefix(s, p)`. -/
def strings_HasPrefix (s p : String) : Bool := p.data.isPrefixOf s.data

namespace Upd

/-! ## upd/cfg/config.go -/

/-- Go `cfg.Apicontext` of the server. -/
structure Apicontext where
  Context : String
  Key : String
  deriving DecidableEq, Repr

/-- Go `cfg.Config` of the server (`upd/cfg/config.go`). -/
structure Config where
  ApiPrefix : String
  Debug : Bool
  Listen : String
  StorageDir : String
  Url : String
  DbFile : String
  Prefork : Bool
  AppName : String
  BodyLimit : Int
  V4only : Bool
  V6only : Bool
  Network : String
  Apicontext : List Apicontext
  deriving DecidableEq, Repr

/-- First statement of `ApplyDefaults`: derive `Url` from `Listen` when it is empty. -/
def Config.applyUrl (c : Config) : Config :=
  if len c.Url == 0 then
    if strings_HasPrefix c.Listen ":" then
      { c with Url := "http://localhost" ++ c.Listen }
    else
      { c with Url := "http://" ++ c.Listen }
  else c

/-- Second statement of `ApplyDefaults`: the `switch` selecting `Network`. -/
def Config.applyNetwork (c : Config) : Config :=
  if c.V4only then { c with Network := "tcp4" }
  else if c.V6only then { c with Network := "tcp6" }
  else if c.Prefork then { c with Network := "tcp4" }
  else { c with Network := "tcp" }

/-- Go `func (c *Config) ApplyDefaults()`; returns the updated receiver. -/
def Config.ApplyDefaults (c : Config) : Config :=
  c.applyUrl.applyNetwork

/-- The value `ApplyDefaults` stores in `Url`. -/
def Config.urlOf (c : Config) : String :=
  if len c.Url == 0 then
    (if strings_HasPrefix c.Listen ":" then "http://localhost" ++ c.Listen
     else "http://" ++ c.Listen)
  else c.Url

/-- The value `ApplyDefaults` stores in `Network`. -/
def Config.networkOf (c : Config) : String :=
  if c.V4only then "tcp4" else if c.V6only then "tcp6"
  else if c.Prefork then "tcp4" else "tcp"

end Upd


/-! ## Go errors and outcomes -/

/-- The `syscall.Errno` values that matter to the client. -/
inductive Errno where
  | ENOENT
  | EACCES
  | ENOTDIR
  | ELOOP
  | ENAMETOOLONG
  | EIO
  deriving DecidableEq, Repr

/-- Go `*fs.PathError`, the error type of `os.Stat`, `os.Lstat` and directory reads. -/
structure PathError where
  Op : String
  Path : String
  Err : Errno
  deriving DecidableEq, Repr

/-- The non-nil values of Go's `error` interface that occur in the client. -/
inductive GoError where
  /-- An error made by `errors.New(text)`. -/
  | errorsNew (text : String)
  /-- A file system error. -/
  | pathError (e : PathError)
  /-- The sentinel `filepath.SkipDir`. -/
  | SkipDir
  /-- The sentinel `filepath.SkipAll`. -/
  | SkipAll
  /-- A `*json.SyntaxError`. -/
  | jsonSyntax
  /-- A `*json.UnmarshalTypeError` for a JSON value of the given description. -/
  | jsonUnmarshalType (value : String)
  /-- An error reported by the HTTP library (connection, timeout, ...). -/
  | transport (descr : String)
  /-- The errors a request collected while it was set up, returned when it
  is sent. -/
  | requestErrors (es : List PathError)
  deriving DecidableEq, Repr

/-- How a Go function with result type `error` ends: it returns nil, returns an
error, or panics at run time. -/
inductive Outcome where
  | nil
  | err (e : GoError)
  | panic (msg : String)
  deriving DecidableEq, Repr

/-- The run-time panic raised by a method call on a nil interface value. -/
def nilDereference : String :=
  "runtime error: invalid memory address or nil pointer dereference"

/-- The outcome of returning a nil-able `error`. -/
def Outcome.ofError : Option GoError → Outcome
  | none => Outcome.nil
  | some e => Outcome.err e

/-- Go `os.IsNotExist(err)`: the error is a path error whose cause is `ENOENT`. -/
def os_IsNotExist : Option GoError → Bool
  | some (GoError.pathError e) => e.Err == Errno.ENOENT
  | _ => false

/-! ## Files as seen through `os.Stat`, `os.Lstat` and directory reads -/

/-- The type bits of a Go `fs.FileMode`. -/
inductive FileType where
  | regular
  | directory
  | symlink
  | namedPipe
  | socket
  | device
  | charDevice
  deriving DecidableEq, Repr

/-- Go `os.FileInfo`, reduced to what the client inspects. -/
structure FileInfo where
  Mode : FileType
  deriving DecidableEq, Repr

/-- Go `info.IsDir()`. -/
def FileInfo.IsDir (info : FileInfo) : Bool := info.Mode == FileType.directory

mutual

/-- What `filepath.Walk` can observe at a path: the result of `os.Lstat` and,
for a directory, the result of reading its names. -/
inductive FsTree where
  /-- The call of `os.Lstat` fails. -/
  | lstatErr (e : PathError)
  /-- The call of `os.Lstat` succeeds with `info`; `dir` is what reading the directory gives. -/
  | node (info : FileInfo) (dir : DirListing)

/-- Result of `readDirNames` on a path. -/
inductive DirListing where
  /-- Reading the directory fails. -/
  | err (e : PathError)
  /-- The sorted names in the directory, each with what lies below it. -/
  | names (entries : FsForest)

/-- The entries of a directory in the order `readDirNames` returns them. -/
inductive FsForest where
  | nil
  | cons (name : String) (t : FsTree) (rest : FsForest)

end

/-- The state of the file system during one run of the client: the answer of
`os.Stat` (which follows symbolic links) for every path, what
`filepath.Walk` (which uses `os.Lstat`) finds when started at a path, and
the error of `os.Open` for every path (`none` when the file opens). -/
structure FileSystem where
  Stat : String → Except PathError FileInfo
  Tree : String → FsTree
  Open : String → Option PathError

/-- Go `os.Stat(name)` as the pair `(info, err)`; exactly one component is nil. -/
def os_Stat (fs : FileSystem) (name : String) : Option FileInfo × Option GoError :=
  match fs.Stat name with
  | Except.ok info => (some info, none)
  | Except.error e => (none, some (GoError.pathError e))

/-! ## `path/filepath` on Unix -/

/-- The path separator. -/
def Separator : Char := '/'

/-- Split a path at every separator; empty elements are kept. -/
def splitPath : List Char → List (List Char)
  | [] => [[]]
  | c :: cs =>
    if c == Separator then [] :: splitPath cs
    else
      match splitPath cs with
      | [] => [[c]]
      | e :: es => (c :: e) :: es

/-- The element loop of Go `filepath.Clean`: `stack` holds the elements kept
so far, last one first.  Empty and single-dot elements vanish; a double-dot
element removes the last real element, is dropped at the root, and is kept
in front of a relative path. -/
def cleanElems (rooted : Bool) : List (List Char) → List (List Char) → List (List Char)
  | [], stack => stack.reverse
  | e :: es, stack =>
    if e == [] || e == ['.'] then cleanElems rooted es stack
    else if e == ['.', '.'] then
      match stack with
      | top :: below =>
        if top == ['.', '.'] then cleanElems rooted es (e :: stack)
        else cleanElems rooted es below
      | [] => if rooted then cleanElems rooted es [] else cleanElems rooted es [e]
    else cleanElems rooted es (e :: stack)

/-- Elements joined by the separator. -/
def joinElems : List (List Char) → List Char
  | [] => []
  | [e] => e
  | e :: es => e ++ Separator :: joinElems es

/-- Go `filepath.Clean(path)`. -/
def filepath_Clean (path : String) : String :=
  match path.data with
  | [] => "."
  | c :: cs =>
    if c == Separator then
      String.mk (Separator :: joinElems (cleanElems true (splitPath cs) []))
    else
      match cleanElems false (splitPath (c :: cs)) [] with
      | [] => "."
      | es => String.mk (joinElems es)

/-- Go `filepath.Join(dir, name)` for two elements: empty elements are
ignored and the result is cleaned. -/
def filepath_Join (dir name : String) : String :=
  if len dir != 0 then filepath_Clean (dir ++ "/" ++ name)
  else if len name != 0 then filepath_Clean name
  else ""

/-- Go `filepath.IsAbs(path)` on Unix. -/
def filepath_IsAbs (path : String) : Bool := strings_HasPrefix path "/"

namespace GoJson

/-! ## A model of Go `encoding/json` text syntax

Go validates the whole text (`checkValid`) before it stores anything; the
parser below accepts exactly the JSON grammar and produces the value tree the
decoder then walks. -/

/-- The double quote character. -/
def quoteChar : Char := Char.ofNat 34

/-- The backslash character. -/
def backslashChar : Char := Char.ofNat 92

/-- The opening brace character. -/
def openBrace : Char := Char.ofNat 123

/-- The closing brace character. -/
def closeBrace : Char := Char.ofNat 125

/-- The opening square bracket. -/
def openBracket : Char := Char.ofNat 91

/-- The closing square bracket. -/
def closeBracket : Char := Char.ofNat 93

/-- Horizontal tab. -/
def tabChar : Char := Char.ofNat 9

/-- Line feed. -/
def newlineChar : Char := Char.ofNat 10

/-- Carriage return. -/
def returnChar : Char := Char.ofNat 13

/-- A parsed JSON text.  A number keeps its literal, as Go converts it only
when it is stored into a typed field. -/
inductive Value where
  | null
  | bool (b : Bool)
  | number (lit : String)
  | string (s : String)
  | array (items : List Value)
  | object (members : List (String × Value))

/-- JSON insignificant whitespace. -/
def isSpace (c : Char) : Bool := c == ' ' || c == tabChar || c == returnChar || c == newlineChar

/-- A decimal digit. -/
def isDigit (c : Char) : Bool := '0'.toNat ≤ c.toNat && c.toNat ≤ '9'.toNat

/-- The input after leading whitespace. -/
def skipSpace : List Char → List Char
  | [] => []
  | c :: cs => if isSpace c then skipSpace cs else c :: cs

/-- The longest run of decimal digits at the head of the input. -/
def spanDigits : List Char → List Char × List Char
  | [] => ([], [])
  | c :: cs =>
    if isDigit c then ((spanDigits cs).1.cons c, (spanDigits cs).2) else ([], c :: cs)

/-- Integer part of a JSON number: `0` or a non-zero digit followed by digits. -/
def scanInt (cs : List Char) : Option (List Char × List Char) :=
  match cs with
  | [] => none
  | c :: rest =>
    if c == '0' then some ([c], rest)
    else if isDigit c then some (c :: (spanDigits rest).1, (spanDigits rest).2)
    else none

/-- Optional fraction: a dot followed by at least one digit. -/
def scanFrac (cs : List Char) : Option (List Char × List Char) :=
  match cs with
  | c :: rest =>
    if c == '.' then
      match spanDigits rest with
      | ([], _) => none
      | (ds, rest2) => some (c :: ds, rest2)
    else some ([], cs)
  | [] => some ([], cs)

/-- Optional exponent: `e` or `E`, an optional sign, at least one digit. -/
def scanExp (cs : List Char) : Option (List Char × List Char) :=
  match cs with
  | c :: rest =>
    if c == 'e' || c == 'E' then
      match rest with
      | s :: rest2 =>
        if s == '+' || s == '-' then
          match spanDigits rest2 with
          | ([], _) => none
          | (ds, rest3) => some (c :: s :: ds, rest3)
        else
          match spanDigits rest with
          | ([], _) => none
          | (ds, rest3) => some (c :: ds, rest3)
      | [] => none
    else some ([], cs)
  | [] => some ([], cs)

/-- A JSON number literal at the head of the input. -/
def scanNumber (cs : List Char) : Option (List Char × List Char) :=
  let (sign, cs1) :=
    match cs with
    | c :: rest => if c == '-' then ([c], rest) else ([], cs)
    | [] => ([], cs)
  match scanInt cs1 with
  | none => none
  | some (ip, cs2) =>
    match scanFrac cs2 with
    | none => none
    | some (fp, cs3) =>
      match scanExp cs3 with
      | none => none
      | some (ep, cs4) => some (sign ++ ip ++ fp ++ ep, cs4)

/-- Value of a hexadecimal digit. -/
def hexVal (c : Char) : Option Nat :=
  if '0'.toNat ≤ c.toNat && c.toNat ≤ '9'.toNat then some (c.toNat - '0'.toNat)
  else if 'a'.toNat ≤ c.toNat && c.toNat ≤ 'f'.toNat then some (c.toNat - 'a'.toNat + 10)
  else if 'A'.toNat ≤ c.toNat && c.toNat ≤ 'F'.toNat then some (c.toNat - 'A'.toNat + 10)
  else none

/-- Go `getu4` after the two characters backslash and `u` were consumed:
four hexadecimal digits. -/
def getu4 (cs : List Char) : Option (Nat × List Char) :=
  match cs with
  | a :: b :: c :: d :: rest =>
    match hexVal a, hexVal b, hexVal c, hexVal d with
    | some x, some y, some z, some w => some (((x * 16 + y) * 16 + z) * 16 + w, rest)
    | _, _, _, _ => none
  | _ => none

/-- Go `utf16.IsSurrogate`. -/
def isSurrogate (r : Nat) : Bool := 0xd800 ≤ r && r < 0xe000

/-- Go `utf16.DecodeRune`; `none` stands for the replacement character result. -/
def decodeSurrogates (r1 r2 : Nat) : Option Nat :=
  if 0xd800 ≤ r1 && r1 < 0xdc00 && 0xdc00 ≤ r2 && r2 < 0xe000 then
    some ((r1 - 0xd800) * 1024 + (r2 - 0xdc00) + 0x10000)
  else none

/-- The Unicode replacement character. -/
def replacementChar : Char := Char.ofNat 0xfffd

/-- Body of a JSON string after the opening quote, unquoted as Go `unquote`
does: returns the decoded characters and the input after the closing quote. -/
def scanString : Nat → List Char → List Char → Option (String × List Char)
  | 0, _, _ => none
  | fuel + 1, acc, cs =>
    match cs with
    | [] => none
    | c :: rest =>
      if c == quoteChar then some (String.mk acc.reverse, rest)
      else if c == backslashChar then
        match rest with
        | [] => none
        | e :: rest2 =>
          if e == quoteChar then scanString fuel (acc.cons quoteChar) rest2
          else if e == backslashChar then scanString fuel (acc.cons backslashChar) rest2
          else if e == '/' then scanString fuel (acc.cons '/') rest2
          else if e == 'b' then scanString fuel (acc.cons (Char.ofNat 8)) rest2
          else if e == 'f' then scanString fuel (acc.cons (Char.ofNat 12)) rest2
          else if e == 'n' then scanString fuel (acc.cons newlineChar) rest2
          else if e == 'r' then scanString fuel (acc.cons returnChar) rest2
          else if e == 't' then scanString fuel (acc.cons tabChar) rest2
          else if e == 'u' then
            match getu4 rest2 with
            | none => none
            | some (r1, rest3) =>
              if isSurrogate r1 then
                match rest3 with
                | b :: u :: rest4 =>
                  if b == backslashChar && u == 'u' then
                    match getu4 rest4 with
                    | some (r2, rest5) =>
                      match decodeSurrogates r1 r2 with
                      | some r => scanString fuel (acc.cons (Char.ofNat r)) rest5
                      | none => scanString fuel (acc.cons replacementChar) rest3
                    | none => scanString fuel (acc.cons replacementChar) rest3
                  else scanString fuel (acc.cons replacementChar) rest3
                | _ => scanString fuel (acc.cons replacementChar) rest3
              else scanString fuel (acc.cons (Char.ofNat r1)) rest3
          else none
      else if c.toNat < 0x20 then none
      else scanString fuel (acc.cons c) rest

/-- The input starts with the given keyword. -/
def scanWord (w : List Char) (cs : List Char) : Option (List Char) :=
  if w.isPrefixOf cs then some (cs.drop w.length) else none

/-- Go `maxNestingDepth`: a text nesting objects and arrays deeper is invalid. -/
def maxNestingDepth : Nat := 10000

mutual

/-- One JSON value at the head of the input (leading whitespace allowed);
`depth` counts the objects and arrays that are open. -/
def parseValue : Nat → Nat → List Char → Option (Value × List Char)
  | 0, _, _ => none
  | fuel + 1, depth, cs =>
    match skipSpace cs with
    | [] => none
    | c :: rest =>
      if c == openBrace then
        if depth + 1 > maxNestingDepth then none
        else
          match skipSpace rest with
          | d :: rest2 =>
            if d == closeBrace then some (Value.object [], rest2)
            else
              match parseMembers fuel (depth + 1) (d :: rest2) with
              | some (ms, rest3) => some (Value.object ms, rest3)
              | none => none
          | [] => none
      else if c == openBracket then
        if depth + 1 > maxNestingDepth then none
        else
          match skipSpace rest with
          | d :: rest2 =>
            if d == closeBracket then some (Value.array [], rest2)
            else
              match parseItems fuel (depth + 1) (d :: rest2) with
              | some (vs, rest3) => some (Value.array vs, rest3)
              | none => none
          | [] => none
      else if c == quoteChar then
        match scanString (rest.length + 1) [] rest with
        | some (s, rest2) => some (Value.string s, rest2)
        | none => none
      else if c == 't' then (scanWord "true".data (c :: rest)).map (fun r => (Value.bool true, r))
      else if c == 'f' then (scanWord "false".data (c :: rest)).map (fun r => (Value.bool false, r))
      else if c == 'n' then (scanWord "null".data (c :: rest)).map (fun r => (Value.null, r))
      else
        match scanNumber (c :: rest) with
        | some (lit, rest2) => some (Value.number (String.mk lit), rest2)
        | none => none

/-- Members of a non-empty object up to and including the closing brace. -/
def parseMembers : Nat → Nat → List Char → Option (List (String × Value) × List Char)
  | 0, _, _ => none
  | fuel + 1, depth, cs =>
    match skipSpace cs with
    | c :: rest =>
      if c == quoteChar then
        match scanString (rest.length + 1) [] rest with
        | none => none
        | some (key, rest2) =>
          match skipSpace rest2 with
          | colon :: rest3 =>
            if colon == ':' then
              match parseValue fuel depth rest3 with
              | none => none
              | some (v, rest4) =>
                match skipSpace rest4 with
                | d :: rest5 =>
                  if d == ',' then
                    match parseMembers fuel depth rest5 with
                    | some (ms, rest6) => some ((key, v) :: ms, rest6)
                    | none => none
                  else if d == closeBrace then some ([(key, v)], rest5)
                  else none
                | [] => none
            else none
          | [] => none
      else none
    | [] => none

/-- Items of a non-empty array up to and including the closing bracket. -/
def parseItems : Nat → Nat → List Char → Option (List Value × List Char)
  | 0, _, _ => none
  | fuel + 1, depth, cs =>
    match parseValue fuel depth cs with
    | none => none
    | some (v, rest) =>
      match skipSpace rest with
      | d :: rest2 =>
        if d == ',' then
          match parseItems fuel depth rest2 with
          | some (vs, rest3) => some (v :: vs, rest3)
          | none => none
        else if d == closeBracket then some ([v], rest2)
        else none
      | [] => none

end

/-- A complete JSON text: one value surrounded by optional whitespace.
`none` is a syntax error (Go `checkValid` fails).  The recursion bound is
never reached: a nested call is made after at least one more character was
read, except the call for an array item, which directly follows a call that
did read one; so the nesting of calls stays below twice the length of the
text plus two. -/
def parse (s : String) : Option Value :=
  match parseValue (2 * s.data.length + 2) 0 s.data with
  | some (v, rest) =>
    match skipSpace rest with
    | [] => some v
    | _ :: _ => none
  | none => none

end GoJson

namespace Upctl

/-! ## The HTTP library `github.com/imroc/req/v3` as the client uses it -/

/-- Go `*req.Request` together with the settings of the client it was made
from, reduced to what the setters the sources call store in it. -/
structure ReqRequest where
  DevMode : Bool
  UserAgent : String
  RetryCount : Int
  /-- Minimum and maximum retry interval in seconds. -/
  RetryBackoffInterval : Option (Nat × Nat)
  /-- Number of retry hooks added. -/
  RetryHooks : Nat
  CommonBearerAuthToken : Option String
  /-- The uploads attached by `SetFile`, in order: form field name and path
  of the opened file. -/
  Files : List (String × String)
  /-- The errors kept by `SetFile` calls that could not attach their file
  (the field `error` of the request), in order. -/
  Errors : List PathError
  FormData : List (String × String)
  /-- Minimum interval of the upload callback in milliseconds. -/
  UploadCallbackInterval : Option Nat
  deriving DecidableEq, Repr

/-- Go `req.C().R()`: a fresh request of a fresh client. -/
def ReqRequest.fresh : ReqRequest :=
  { DevMode := false, UserAgent := "", RetryCount := 0, RetryBackoffInterval := none,
    RetryHooks := 0, CommonBearerAuthToken := none, Files := [], Errors := [], FormData := [],
    UploadCallbackInterval := none }

/-- Go `(*req.Request).SetFile(paramName, filePath)`: the library opens the
file with `os.Open` and reads its size with `os.Stat` at once.  When either
call fails it attaches nothing and keeps the error in the request (it also
writes a line to its log, which is not part of this model); otherwise it
attaches one upload. -/
def ReqRequest.SetFile (fs : FileSystem) (r : ReqRequest) (paramName filePath : String) :
    ReqRequest :=
  match fs.Open filePath with
  | some e => { r with Errors := r.Errors ++ [e] }
  | none =>
    match fs.Stat filePath with
    | Except.error e => { r with Errors := r.Errors ++ [e] }
    | Except.ok _ => { r with Files := r.Files ++ [(paramName, filePath)] }

/-- Go `(*req.Request).SetFormData(data)`. -/
def ReqRequest.SetFormData (r : ReqRequest) (data : List (String × String)) : ReqRequest :=
  { r with FormData := r.FormData ++ data }

/-- Go `(*req.Request).SetUploadCallbackWithInterval(callback, interval)`. -/
def ReqRequest.SetUploadCallbackWithInterval (r : ReqRequest) (millis : Nat) : ReqRequest :=
  { r with UploadCallbackInterval := some millis }

/-- Go `*req.Response`, reduced to what `HandleResponse` reads. -/
structure ReqResponse where
  /-- The body text, `resp.String()`. -/
  Body : String
  /-- The field `resp.Err`. -/
  Err : Option GoError
  /-- The text of `resp.Request.TraceInfo().Blame()`. -/
  TraceBlame : String
  /-- The text printed for `resp.Request.TraceInfo()`. -/
  Trace : String
  deriving DecidableEq, Repr

/-- One HTTP exchange started by the client. -/
structure HttpCall where
  Method : String
  Url : String
  Request : ReqRequest
  deriving DecidableEq, Repr

/-- The remote side: for every request sent, the response, the lines the
upload callback prints while the body is transferred, and the error the
library returns. -/
structure Network where
  Do : HttpCall → ReqResponse × List String × Option GoError

/-- Go `(*req.Request).Post(url)` and the like: a request that kept an error
while it was set up is not sent, the library returns that error with an
empty response; any other request goes to the network.  The result is the
exchanges started, the response, the lines printed by the upload callback
and the returned error. -/
def ReqRequest.Send (net : Network) (r : ReqRequest) (method url : String) :
    List HttpCall × ReqResponse × List String × Option GoError :=
  if r.Errors.isEmpty then
    match net.Do { Method := method, Url := url, Request := r } with
    | (resp, progress, err) => ([{ Method := method, Url := url, Request := r }], resp, progress, err)
  else
    ([], { Body := "", Err := some (GoError.requestErrors r.Errors), TraceBlame := "", Trace := "" },
      [], some (GoError.requestErrors r.Errors))

/-- What one run of a workflow did: lines printed, HTTP exchanges started,
and how it ended. -/
structure Run where
  Stdout : List String
  Requests : List HttpCall
  Result : Outcome
  deriving DecidableEq, Repr

/-! ## upctl/lib/client.go -/

/-- Modelled from the spec: the client configuration `upctl/cfg.Config`.  Its
declaration is not among the sources; the fields are the ones `client.go`
reads (endpoint, API key, retry count, debug flag, expire directive, tenant
context). -/
structure Config where
  Endpoint : String
  Apikey : String
  Retries : Int
  Debug : Bool
  Expire : String
  Apicontext : String
  deriving DecidableEq, Repr

/-- Go `lib.Response`, the envelope of the service. -/
structure Response where
  Code : Int
  Success : Bool
  Message : String
  deriving DecidableEq, Repr

/-- The zero value `Response{}`. -/
def Response.zero : Response := { Code := 0, Success := false, Message := "" }

/-- Go `lib.Request`. -/
structure Request where
  R : ReqRequest
  Url : String
  deriving DecidableEq, Repr

/-- Go `lib.Setup(c, path)`.  `VERSION` is the package variable `cfg.VERSION`. -/
def Setup (VERSION : String) (c : Config) (path : String) : Request :=
  let client : ReqRequest := ReqRequest.fresh
  let client := if c.Debug then { client with DevMode := true } else client
  let client := { client with UserAgent := "upctl-" ++ VERSION }
  let R := client
  let R :=
    if c.Retries > 0 then
      { R with RetryCount := c.Retries, RetryBackoffInterval := some (1, 5),
               RetryHooks := R.RetryHooks + 1 }
    else R
  let R :=
    if len c.Apikey > 0 then { R with CommonBearerAuthToken := some c.Apikey } else R
  { Url := c.Endpoint ++ path, R := R }

/-- The function literal `GatherFiles` passes to `filepath.Walk`; `rq` is the
captured request. -/
def GatherFiles_walkFn (fs : FileSystem) (rq : Request) (path : String)
    (info : Option FileInfo) (err : Option GoError) : Request × Outcome :=
  match err with
  | some e => (rq, Outcome.err e)
  | none =>
    match info with
    | none => (rq, Outcome.panic nilDereference)
    | some i =>
      if !i.IsDir then ({ rq with R := rq.R.SetFile fs "upload[]" path }, Outcome.nil)
      else (rq, Outcome.nil)

end Upctl

/-! ## `filepath.Walk` -/

mutual

/-- Go `filepath.walk(path, info, walkFn)` after `os.Lstat` succeeded with
`info`; `dir` is what `readDirNames(path)` returns. -/
def filepath_walk {σ : Type} (fn : σ → String → Option FileInfo → Option GoError → σ × Outcome)
    (path : String) (info : FileInfo) : DirListing → σ → σ × Outcome
  | DirListing.err e, s =>
    if !info.IsDir then fn s path (some info) none
    else fn s path (some info) (some (GoError.pathError e))
  | DirListing.names entries, s =>
    if !info.IsDir then fn s path (some info) none
    else
      match fn s path (some info) none with
      | (s1, Outcome.nil) => filepath_walkNames fn path entries s1
      | (s1, o) => (s1, o)

/-- The loop `for _, name := range names` of Go `filepath.walk`. -/
def filepath_walkNames {σ : Type}
    (fn : σ → String → Option FileInfo → Option GoError → σ × Outcome)
    (path : String) : FsForest → σ → σ × Outcome
  | FsForest.nil, s => (s, Outcome.nil)
  | FsForest.cons name t rest, s =>
    match t with
    | FsTree.lstatErr e =>
      match fn s (filepath_Join path name) none (some (GoError.pathError e)) with
      | (s1, Outcome.nil) => filepath_walkNames fn path rest s1
      | (s1, Outcome.err e1) =>
        if e1 = GoError.SkipDir then filepath_walkNames fn path rest s1
        else (s1, Outcome.err e1)
      | (s1, o) => (s1, o)
    | FsTree.node info dir =>
      match filepath_walk fn (filepath_Join path name) info dir s with
      | (s1, Outcome.nil) => filepath_walkNames fn path rest s1
      | (s1, Outcome.err e1) =>
        if !info.IsDir || e1 != GoError.SkipDir then (s1, Outcome.err e1)
        else filepath_walkNames fn path rest s1
      | (s1, o) => (s1, o)

end

/-- Go `filepath.Walk(root, fn)`. -/
def filepath_Walk {σ : Type} (fs : FileSystem) (root : String)
    (fn : σ → String → Option FileInfo → Option GoError → σ × Outcome) (s : σ) : σ × Outcome :=
  let r :=
    match fs.Tree root with
    | FsTree.lstatErr e => fn s root none (some (GoError.pathError e))
    | FsTree.node info dir => filepath_walk fn root info dir s
  match r with
  | (s1, Outcome.err e) =>
    if e = GoError.SkipDir || e = GoError.SkipAll then (s1, Outcome.nil) else (s1, Outcome.err e)
  | (s1, o) => (s1, o)

namespace Upctl

/-- Go `lib.GatherFiles(rq, args)`: the updated request and the returned error. -/
def GatherFiles (fs : FileSystem) (rq : Request) : List String → Request × Outcome
  | [] => (rq, Outcome.nil)
  | file :: rest =>
    match os_Stat fs file with
    | (info, err) =>
      if os_IsNotExist err then (rq, Outcome.ofError err)
      else
        match info with
        | none => (rq, Outcome.panic nilDereference)
        | some i =>
          if i.IsDir then
            match filepath_Walk fs file (GatherFiles_walkFn fs) rq with
            | (rq1, Outcome.nil) => GatherFiles fs rq1 rest
            | (rq1, o) => (rq1, o)
          else GatherFiles fs { rq with R := rq.R.SetFile fs "upload[]" file } rest

end Upctl

namespace GoJson

/-! ## Storing a JSON value into a `lib.Response`

Go matches an object key with a struct field by its exact name first and by
its case-folded name otherwise; a value of the wrong kind for a field is
skipped, the first such mismatch is remembered and returned after the whole
object has been processed. -/

/-- Go `foldRune` on the characters that fold to an ASCII letter: the letters
themselves, the long s and the Kelvin sign.  Other characters are irrelevant
for matching the ASCII field names and are left alone. -/
def foldRune (c : Char) : Char :=
  if 'a'.toNat ≤ c.toNat && c.toNat ≤ 'z'.toNat then Char.ofNat (c.toNat - 32)
  else if c.toNat == 0x17f then 'S'
  else if c.toNat == 0x212a then 'K'
  else c

/-- Go `foldName`. -/
def foldName (s : String) : List Char := s.data.map foldRune

/-- The fields of `lib.Response` by their `json` tags. -/
inductive Field where
  | code
  | success
  | message
  deriving DecidableEq, Repr

/-- The field an object key selects, if any. -/
def lookupField (key : String) : Option Field :=
  if key = "code" then some Field.code
  else if key = "success" then some Field.success
  else if key = "message" then some Field.message
  else if foldName key = foldName "code" then some Field.code
  else if foldName key = foldName "success" then some Field.success
  else if foldName key = foldName "message" then some Field.message
  else none

/-- Value of a run of decimal digits. -/
def digitsValue (ds : List Char) : Nat :=
  ds.foldl (fun acc d => acc * 10 + (d.toNat - '0'.toNat)) 0

/-- Go `strconv.ParseInt(lit, 10, 64)` on a JSON number literal: only an
optional minus sign followed by digits is an integer, and it must fit into
64 bits (Go `int` on a 64-bit platform). -/
def parseInt64 (lit : String) : Option Int :=
  match lit.data with
  | [] => none
  | c :: cs =>
    if c == '-' then
      if cs != [] && cs.all isDigit && digitsValue cs ≤ 2 ^ 63 then
        some (- (digitsValue cs : Int))
      else none
    else
      if (c :: cs).all isDigit && digitsValue (c :: cs) < 2 ^ 63 then
        some (digitsValue (c :: cs) : Int)
      else none

/-- The kind of JSON value Go names in an `UnmarshalTypeError`. -/
def kindName : Value → String
  | Value.null => "null"
  | Value.bool _ => "bool"
  | Value.number _ => "number"
  | Value.string _ => "string"
  | Value.array _ => "array"
  | Value.object _ => "object"

end GoJson

namespace Upctl

/-- Store one member value into the field it selects: the updated envelope
and the type error, if the value does not fit. `null` stores nothing. -/
def storeField (r : Response) (f : GoJson.Field) (v : GoJson.Value) : Response × Option GoError :=
  match v with
  | GoJson.Value.null => (r, none)
  | GoJson.Value.bool b =>
    match f with
    | GoJson.Field.success => ({ r with Success := b }, none)
    | _ => (r, some (GoError.jsonUnmarshalType (GoJson.kindName v)))
  | GoJson.Value.number lit =>
    match f with
    | GoJson.Field.code =>
      match GoJson.parseInt64 lit with
      | some n => ({ r with Code := n }, none)
      | none => (r, some (GoError.jsonUnmarshalType ("number " ++ lit)))
    | _ => (r, some (GoError.jsonUnmarshalType (GoJson.kindName v)))
  | GoJson.Value.string s =>
    match f with
    | GoJson.Field.message => ({ r with Message := s }, none)
    | _ => (r, some (GoError.jsonUnmarshalType (GoJson.kindName v)))
  | _ => (r, some (GoError.jsonUnmarshalType (GoJson.kindName v)))

/-- Process the members of an object in order; `saved` is the first type
error met so far. -/
def storeMembers : List (String × GoJson.Value) → Response → Option GoError →
    Response × Option GoError
  | [], r, saved => (r, saved)
  | (key, v) :: rest, r, saved =>
    match GoJson.lookupField key with
    | none => storeMembers rest r saved
    | some f =>
      match storeField r f v with
      | (r1, e) => storeMembers rest r1 (if saved.isSome then saved else e)

/-- Go `json.Unmarshal([]byte(data), &r)` for `r` of type `lib.Response`:
the envelope after the call and the returned error.  A syntax error leaves
`r` untouched; so does a text that is not an object; an object is stored
member by member. -/
def json_Unmarshal (data : String) (r : Response) : Response × Option GoError :=
  match GoJson.parse data with
  | none => (r, some GoError.jsonSyntax)
  | some (GoJson.Value.object members) => storeMembers members r none
  | some GoJson.Value.null => (r, none)
  | some v => (r, some (GoError.jsonUnmarshalType (GoJson.kindName v)))

/-- Lines 141 to 146 of `HandleResponse`: the envelope `r` after decoding the
body, with the raw body as message when decoding returned an error. -/
def decodeEnvelope (resp : ReqResponse) : Response :=
  match json_Unmarshal resp.Body Response.zero with
  | (r, some _) => { r with Message := resp.Body }
  | (r, none) => r

/-- Lines 148 to 153 of `HandleResponse`: the lines printed in debug mode. -/
def debugTrace (c : Config) (resp : ReqResponse) : List String :=
  if c.Debug then [resp.TraceBlame, "----------", resp.Trace] else []

/-- Go `lib.HandleResponse(c, resp)`: the lines printed and the returned error. -/
def HandleResponse (c : Config) (resp : ReqResponse) : List String × Option GoError :=
  let r := decodeEnvelope resp
  let out := debugTrace c resp
  if !r.Success then
    if len r.Message == 0 then
      match resp.Err with
      | some e => (out, some e)
      | none => (out, some (GoError.errorsNew "Unknown error"))
    else (out, some (GoError.errorsNew r.Message))
  else (out ++ [r.Message], none)

/-- Go `lib.Upload(c, args)`. -/
def Upload (fs : FileSystem) (net : Network) (VERSION : String) (c : Config)
    (args : List String) : Run :=
  let rq := Setup VERSION c "/file/"
  match GatherFiles fs rq args with
  | (_, Outcome.err e) => { Stdout := [], Requests := [], Result := Outcome.err e }
  | (_, Outcome.panic m) => { Stdout := [], Requests := [], Result := Outcome.panic m }
  | (rq1, Outcome.nil) =>
    match ((rq1.R.SetFormData [("expire", c.Expire)]).SetUploadCallbackWithInterval 10).Send
        net "POST" rq1.Url with
    | (calls, resp, progress, err) =>
      match err with
      | some e => { Stdout := progress ++ [""], Requests := calls, Result := Outcome.err e }
      | none =>
        match HandleResponse c resp with
        | (out, e) =>
          { Stdout := progress ++ [""] ++ out, Requests := calls, Result := Outcome.ofError e }

/-! ## upctl/cmd/upload.go and upctl/cmd/describe.go -/

/-- Go `cobra.Command`, reduced to the field the commands assign. -/
structure CobraCommand where
  SilenceUsage : Bool
  deriving DecidableEq, Repr

/-- What a `RunE` function does, in program order. -/
inductive CmdEvent where
  /-- The assignment `cmd.SilenceUsage = b`. -/
  | setSilenceUsage (b : Bool)
  /-- The call of a library workflow with the argument list. -/
  | workflow (name : String) (args : List String)
  deriving DecidableEq, Repr

/-- A finished `RunE`: the command afterwards, the events in program order,
and what the run did. -/
structure CmdRun where
  Cmd : CobraCommand
  Events : List CmdEvent
  Run : Run
  deriving DecidableEq, Repr

/-- The `RunE` function of Go `cmd.UploadCommand(conf)`. -/
def UploadCommand_RunE (fs : FileSystem) (net : Network) (VERSION : String) (conf : Config)
    (cmd : CobraCommand) (args : List String) : CmdRun :=
  if args.length == 0 then
    { Cmd := cmd, Events := [],
      Run := { Stdout := [], Requests := [],
               Result := Outcome.err (GoError.errorsNew "No files specified to upload!") } }
  else
    let cmd1 : CobraCommand := { cmd with SilenceUsage := true }
    { Cmd := cmd1,
      Events := [CmdEvent.setSilenceUsage true, CmdEvent.workflow "lib.Upload" args],
      Run := Upload fs net VERSION conf args }

/-- The `RunE` function of Go `cmd.DescribeCommand(conf)`.  The workflow
`lib.Describe` is not among the sources and is a parameter. -/
def DescribeCommand_RunE (Describe : Config → List String → Run) (conf : Config)
    (cmd : CobraCommand) (args : List String) : CmdRun :=
  if args.length == 0 then
    { Cmd := cmd, Events := [],
      Run := { Stdout := [], Requests := [],
               Result := Outcome.err (GoError.errorsNew "No id specified to delete!") } }
  else
    let cmd1 : CobraCommand := { cmd with SilenceUsage := true }
    { Cmd := cmd1,
      Events := [CmdEvent.setSilenceUsage true, CmdEvent.workflow "lib.Describe" args],
      Run := Describe conf args }

end Upctl

/-! ## Vocabulary for stating properties of file collection -/

namespace Upctl

/-- What a run of file collection adds to a request: the uploads it
attaches and the errors the library keeps, each in order. -/
structure Added where
  Files : List (String × String)
  Errors : List PathError
  deriving DecidableEq, Repr

/-- Nothing added. -/
def Added.none : Added := { Files := [], Errors := [] }

/-- One addition after another. -/
def Added.append (a b : Added) : Added :=
  { Files := a.Files ++ b.Files, Errors := a.Errors ++ b.Errors }

/-- The request with the additions after what it holds already. -/
def Request.add (rq : Request) (d : Added) : Request :=
  { rq with R := { rq.R with Files := rq.R.Files ++ d.Files, Errors := rq.R.Errors ++ d.Errors } }

/-- The uploads and errors a request holds. -/
def Request.held (rq : Request) : Added := { Files := rq.R.Files, Errors := rq.R.Errors }

/-- A request without any file entry. -/
def Request.empty : Request := { R := ReqRequest.fresh, Url := "" }

/-- The file paths attached to a request, in order. -/
def Request.paths (rq : Request) : List String := rq.R.Files.map Prod.snd

/-- The entry sequence `GatherFiles` produces for an argument list: the paths
it attaches to a request that had none. -/
def entries (fs : FileSystem) (args : List String) : List String :=
  (GatherFiles fs Request.empty args).1.paths

/-- The library can attach the file at the path: `os.Open` and `os.Stat`
both succeed. -/
def attachable (fs : FileSystem) (path : String) : Bool :=
  match fs.Open path with
  | some _ => false
  | none =>
    match fs.Stat path with
    | Except.error _ => false
    | Except.ok _ => true

/-- What the call `SetFile("upload[]", path)` adds to a request. -/
def setFileAdds (fs : FileSystem) (path : String) : Added :=
  match fs.Open path with
  | some e => { Files := [], Errors := [e] }
  | none =>
    match fs.Stat path with
    | Except.error e => { Files := [], Errors := [e] }
    | Except.ok _ => { Files := [("upload[]", path)], Errors := [] }

/-- A run only adds to the request, and what it adds and how it ends does
not depend on the request it starts from. -/
def Framed (run : Request → Request × Outcome) : Prop :=
  ∀ rq, run rq = (rq.add (run Request.empty).1.held, (run Request.empty).2)

/-- The body of the loop of `GatherFiles` for one argument. -/
def loopBody (fs : FileSystem) (file : String) (rq : Request) : Request × Outcome :=
  match os_Stat fs file with
  | (info, err) =>
    if os_IsNotExist err then (rq, Outcome.ofError err)
    else
      match info with
      | none => (rq, Outcome.panic nilDereference)
      | some i =>
        if i.IsDir then filepath_Walk fs file (GatherFiles_walkFn fs) rq
        else ({ rq with R := rq.R.SetFile fs "upload[]" file }, Outcome.nil)

/-- The outcome after which a loop goes on: nil. -/
def continuesOnNil : Outcome → Bool
  | Outcome.nil => true
  | _ => false

/-- The loop of `filepath.walk` goes on to the next name after walking an
entry that `os.Lstat` could read exactly for these outcomes. -/
def continuesAfterNode (info : FileInfo) : Outcome → Bool
  | Outcome.nil => true
  | Outcome.err e => !(!info.IsDir || e != GoError.SkipDir)
  | Outcome.panic _ => false

end Upctl

mutual

/-- Number of non-directory entries at or below `path` that satisfy `p`;
directories are entered, nothing else is (symbolic links are not
followed). -/
def countTree (p : String → FileInfo → Bool) (path : String) : FsTree → Nat
  | FsTree.lstatErr _ => 0
  | FsTree.node info dir =>
    if info.IsDir then countListing p path dir else if p path info then 1 else 0

/-- Count below the directory `path`, see `countTree`. -/
def countListing (p : String → FileInfo → Bool) (path : String) : DirListing → Nat
  | DirListing.err _ => 0
  | DirListing.names entries => countForest p path entries

/-- Count over the entries of the directory `path`, see `countTree`. -/
def countForest (p : String → FileInfo → Bool) (path : String) : FsForest → Nat
  | FsForest.nil => 0
  | FsForest.cons name t rest =>
    countTree p (filepath_Join path name) t + countForest p path rest

end

mutual

/-- No `os.Lstat` and no directory read fails at or below the path. -/
def cleanTree : FsTree → Bool
  | FsTree.lstatErr _ => false
  | FsTree.node info dir => if info.IsDir then cleanListing dir else true

/-- No error below a directory, see `cleanTree`. -/
def cleanListing : DirListing → Bool
  | DirListing.err _ => false
  | DirListing.names entries => cleanForest entries

/-- No error among the entries of a directory, see `cleanTree`. -/
def cleanForest : FsForest → Bool
  | FsForest.nil => true
  | FsForest.cons _ t rest => cleanTree t && cleanForest rest

end

/-- Number of files reachable from one argument that satisfy `p`: a
non-directory argument is one file, a directory argument stands for the
non-directory entries below it. -/
def reachableFrom (p : String → FileInfo → Bool) (fs : FileSystem) (arg : String) : Nat :=
  match fs.Stat arg with
  | Except.ok info =>
    if info.IsDir then countTree p arg (fs.Tree arg) else if p arg info then 1 else 0
  | Except.error _ => 0

/-- The argument exists and, if it is a directory, walking it meets no error. -/
def argWalkable (fs : FileSystem) (arg : String) : Bool :=
  match fs.Stat arg with
  | Except.ok info => if info.IsDir then cleanTree (fs.Tree arg) else true
  | Except.error _ => false

/-- The entries the code attaches: every non-directory entry the library
can open. -/
def isAttachable (fs : FileSystem) (path : String) (_ : FileInfo) : Bool :=
  Upctl.attachable fs path

/-- The entries the library refuses: the non-directory entries it cannot
open. -/
def isRefused (fs : FileSystem) (path : String) (_ : FileInfo) : Bool :=
  !Upctl.attachable fs path

/-- The argument does not exist: `os.Stat` fails with `ENOENT`. -/
def argMissing (fs : FileSystem) (arg : String) : Bool :=
  os_IsNotExist (os_Stat fs arg).2

/-! ## Concrete inputs used to evaluate the functions -/

namespace Example

open Upctl

/-- What reading a non-directory as a directory returns. -/
def notADirectory (path : String) : DirListing :=
  DirListing.err { Op := "open", Path := path, Err := Errno.ENOTDIR }

/-- A regular file as `filepath.Walk` sees it. -/
def regularFile (path : String) : FsTree :=
  FsTree.node { Mode := FileType.regular } (notADirectory path)

/-- A symbolic link as `filepath.Walk` sees it: `os.Lstat` does not follow
it, whatever it points to. -/
def symbolicLink (path : String) : FsTree :=
  FsTree.node { Mode := FileType.symlink } (notADirectory path)

/-- A directory holding the regular file `a.txt` and the symbolic link `link`. -/
def directory (path : String) : FsTree :=
  FsTree.node { Mode := FileType.directory }
    (DirListing.names
      (FsForest.cons "a.txt" (regularFile (path ++ "/a.txt"))
        (FsForest.cons "link" (symbolicLink (path ++ "/link")) FsForest.nil)))

/-- A directory that cannot be read. -/
def lockedDirectory (path : String) : FsTree :=
  FsTree.node { Mode := FileType.directory }
    (DirListing.err { Op := "open", Path := path, Err := Errno.EACCES })

/-- The answers of `os.Stat` in the small file system `fs`. -/
def stat (p : String) : Except PathError FileInfo :=
  if p = "a.txt" ∨ p = "secret.txt" ∨ p = "d/a.txt" ∨ p = "/srv/d/a.txt" ∨ p = "/etc/passwd" then
    Except.ok { Mode := FileType.regular }
  else if p = "d" ∨ p = "/srv/d" ∨ p = "locked" ∨ p = "d/link" ∨ p = "/srv/d/link" then
    Except.ok { Mode := FileType.directory }
  else if p = "/etc/passwd/x" then
    Except.error { Op := "stat", Path := p, Err := Errno.ENOTDIR }
  else Except.error { Op := "stat", Path := p, Err := Errno.ENOENT }

/-- A small file system.  Relative to the working directory there are the
regular files `a.txt` and `secret.txt` (which the user may not read), the
directory `d` (holding the regular file `a.txt` and `link`, a symbolic link
to an empty directory) and the unreadable directory `locked`; `d` is also
reachable as `/srv/d`; `/etc/passwd` is a regular file, so `/etc/passwd/x`
fails with `ENOTDIR`; every other path is missing. -/
def fs : FileSystem :=
  { Stat := stat,
    Tree := fun p =>
      if p = "a.txt" ∨ p = "secret.txt" ∨ p = "d/a.txt" ∨ p = "/srv/d/a.txt" ∨
          p = "/etc/passwd" then regularFile p
      else if p = "d" ∨ p = "/srv/d" then directory p
      else if p = "d/link" ∨ p = "/srv/d/link" then symbolicLink p
      else if p = "locked" then lockedDirectory p
      else if p = "/etc/passwd/x" then
        FsTree.lstatErr { Op := "lstat", Path := p, Err := Errno.ENOTDIR }
      else FsTree.lstatErr { Op := "lstat", Path := p, Err := Errno.ENOENT },
    Open := fun p =>
      match stat p with
      | Except.error e => some { Op := "open", Path := p, Err := e.Err }
      | Except.ok _ =>
        if p = "secret.txt" ∨ p = "locked" then
          some { Op := "open", Path := p, Err := Errno.EACCES }
        else none }

/-- A client configuration without API key, retries or debugging. -/
def conf : Config :=
  { Endpoint := "http://localhost:8080/api", Apikey := "", Retries := 0, Debug := false,
    Expire := "1h", Apicontext := "" }

/-- A response with the given body and transport error. -/
def response (body : String) (err : Option GoError) : ReqResponse :=
  { Body := body, Err := err, TraceBlame := "", Trace := "" }

/-- The body of a successful envelope: code 200, success true, message `ok`. -/
def okBody : String := "\x7b\"code\":200,\"success\":true,\"message\":\"ok\"\x7d"

/-- The body of a failed envelope with the message `quota exceeded`. -/
def quotaBody : String := "\x7b\"success\":false,\"message\":\"quota exceeded\"\x7d"

/-- The body of a failed envelope with an empty message. -/
def emptyFailureBody : String := "\x7b\"success\":false,\"message\":\"\"\x7d"

/-- A body that is JSON but not an envelope: `code` holds a string. -/
def mistypedBody : String := "\x7b\"success\":true,\"code\":\"x\"\x7d"

/-- A service that answers every request with the successful envelope. -/
def net : Network :=
  { Do := fun _ => (response okBody none, [], none) }

/-- A command as cobra creates it. -/
def cmd : CobraCommand := { SilenceUsage := false }

/-- A describe workflow that reports the identifier it was called with. -/
def describeWorkflow (_ : Config) (args : List String) : Run :=
  { Stdout := args, Requests := [], Result := Outcome.nil }

end Example

/-! # Theorems -/

/-! ## Basic facts about Go strings -/

theorem len_eq_zero_iff (s : String) : len s = 0 ↔ s = "" := by
  have h := String.isEmpty_iff s
  simp only [String.isEmpty, String.endPos] at h
  unfold len
  constructor
  · intro h0
    apply h.mp
    simp [h0]
  · intro hs
    subst hs
    rfl

theorem len_append (a b : String) : len (a ++ b) = len a + len b := by
  unfold len
  cases a with
  | mk xs =>
    cases b with
    | mk ys =>
      show String.utf8Len (xs ++ ys) = String.utf8Len xs + String.utf8Len ys
      exact String.utf8Len_append xs ys

/-! ## Claims about the server configuration -/

namespace Upd

theorem applyUrl_eq (c : Config) : c.applyUrl = { c with Url := c.urlOf } := by
  unfold Config.applyUrl Config.urlOf
  split_ifs <;> rfl

theorem applyNetwork_eq (c : Config) : c.applyNetwork = { c with Network := c.networkOf } := by
  unfold Config.applyNetwork Config.networkOf
  split_ifs <;> rfl

theorem ApplyDefaults_eq (c : Config) :
    c.ApplyDefaults = { c with Url := c.urlOf, Network := c.networkOf } := by
  unfold Config.ApplyDefaults
  rw [applyNetwork_eq, applyUrl_eq]
  rfl

theorem urlOf_ne_empty (c : Config) : len c.urlOf ≠ 0 := by
  unfold Config.urlOf
  split_ifs with h1 h2
  · rw [len_append]
    have : len "http://localhost" = 16 := by decide
    omega
  · rw [len_append]
    have : len "http://" = 7 := by decide
    omega
  · simpa using h1

theorem urlOf_spec (c : Config) :
    c.urlOf =
      (if c.Url = "" then
        (if strings_HasPrefix c.Listen ":" then "http://localhost" ++ c.Listen
         else "http://" ++ c.Listen)
       else c.Url) := by
  unfold Config.urlOf
  by_cases h : c.Url = ""
  · have h0 : len c.Url = 0 := (len_eq_zero_iff _).mpr h
    rw [if_pos (by simp [h0]), if_pos h]
  · have h0 : ¬ len c.Url = 0 := fun h0 => h ((len_eq_zero_iff _).mp h0)
    rw [if_neg (by simp [h0]), if_neg h]

/-- C10: `Config.ApplyDefaults` is idempotent; it keeps a non-empty `Url` and
derives an empty one from `Listen` (`http://localhost` + `Listen` when `Listen`
starts with a colon, else `http://` + `Listen`); `Network` is `tcp4`, `tcp6` or
`tcp`, chosen by `V4only`, then `V6only`, then `Prefork`; all other fields are
unchanged. -/
theorem ApplyDefaults_idempotent_and_table (c : Config) :
    c.ApplyDefaults.ApplyDefaults = c.ApplyDefaults ∧
    c.ApplyDefaults.Url =
      (if c.Url = "" then
        (if strings_HasPrefix c.Listen ":" then "http://localhost" ++ c.Listen
         else "http://" ++ c.Listen)
       else c.Url) ∧
    c.ApplyDefaults.Network =
      (if c.V4only then "tcp4" else if c.V6only then "tcp6"
       else if c.Prefork then "tcp4" else "tcp") ∧
    c.ApplyDefaults.Network ∈ ["tcp4", "tcp6", "tcp"] ∧
    c.ApplyDefaults =
      { c with Url := c.ApplyDefaults.Url, Network := c.ApplyDefaults.Network } := by
  have hU : c.ApplyDefaults.Url = c.urlOf := by rw [ApplyDefaults_eq]
  have hN : c.ApplyDefaults.Network = c.networkOf := by rw [ApplyDefaults_eq]
  refine ⟨?_, ?_, ?_, ?_, ?_⟩
  · have hne := urlOf_ne_empty c
    have h1 : c.ApplyDefaults.urlOf = c.urlOf := by
      rw [ApplyDefaults_eq]
      show (if len c.urlOf == 0 then _ else c.urlOf) = c.urlOf
      simp [hne]
    have h2 : c.ApplyDefaults.networkOf = c.networkOf := by
      rw [ApplyDefaults_eq]
      rfl
    rw [ApplyDefaults_eq c.ApplyDefaults, h1, h2, ApplyDefaults_eq c]
  · rw [hU]
    exact urlOf_spec c
  · rw [hN]
    rfl
  · rw [hN]
    unfold Config.networkOf
    split_ifs <;> simp
  · rw [hU, hN]
    exact ApplyDefaults_eq c

/-- Two evaluations of `ApplyDefaults`: a configuration listening on port 8080 of all
interfaces, and one with a host name, a set `Url` and both address families
requested. -/
theorem ApplyDefaults_examples :
    ({ ApiPrefix := "/api", Debug := false, Listen := ":8080", StorageDir := "/tmp",
       Url := "", DbFile := "/tmp/uploads.db", Prefork := true, AppName := "upd",
       BodyLimit := 10250000000, V4only := false, V6only := false, Network := "",
       Apicontext := [] } : Config).ApplyDefaults =
      { ApiPrefix := "/api", Debug := false, Listen := ":8080", StorageDir := "/tmp",
        Url := "http://localhost:8080", DbFile := "/tmp/uploads.db", Prefork := true,
        AppName := "upd", BodyLimit := 10250000000, V4only := false, V6only := false,
        Network := "tcp4", Apicontext := [] } ∧
    ({ ApiPrefix := "/api", Debug := false, Listen := "up.example.org:80", StorageDir := "/tmp",
       Url := "https://up.example.org", DbFile := "/tmp/uploads.db", Prefork := false,
       AppName := "upd", BodyLimit := 0, V4only := true, V6only := true, Network := "udp",
       Apicontext := [] } : Config).ApplyDefaults =
      { ApiPrefix := "/api", Debug := false, Listen := "up.example.org:80", StorageDir := "/tmp",
        Url := "https://up.example.org", DbFile := "/tmp/uploads.db", Prefork := false,
        AppName := "upd", BodyLimit := 0, V4only := true, V6only := true, Network := "tcp4",
        Apicontext := [] } := by
  decide

end Upd

/-! ## File collection: the request only grows, and what is added does not
depend on the request -/

namespace Upctl

theorem add_none (rq : Request) : rq.add Added.none = rq := by
  cases rq with
  | mk R Url => cases R; simp [Request.add, Added.none]

theorem add_add (rq : Request) (a b : Added) :
    (rq.add a).add b = rq.add (a.append b) := by
  simp [Request.add, Added.append, List.append_assoc]

theorem add_files (rq : Request) (a : Added) :
    (rq.add a).R.Files = rq.R.Files ++ a.Files := rfl

theorem add_held (rq : Request) (a : Added) :
    (rq.add a).held = rq.held.append a := rfl

theorem empty_held : Request.empty.held = Added.none := rfl

theorem none_append (a : Added) : Added.none.append a = a := by
  cases a
  simp [Added.none, Added.append]

theorem empty_add_held (a : Added) : (Request.empty.add a).held = a := by
  rw [add_held, empty_held, none_append]

theorem setFile_eq_add (fs : FileSystem) (rq : Request) (path : String) :
    ({ rq with R := rq.R.SetFile fs "upload[]" path } : Request) =
      rq.add (setFileAdds fs path) := by
  unfold ReqRequest.SetFile setFileAdds Request.add
  cases fs.Open path with
  | some e => simp
  | none =>
    cases fs.Stat path with
    | error e => simp
    | ok i => simp

theorem walkFn_dir (fs : FileSystem) (rq : Request) (path : String) (info : FileInfo)
    (h : info.IsDir = true) :
    GatherFiles_walkFn fs rq path (some info) none = (rq, Outcome.nil) := by
  simp [GatherFiles_walkFn, h]

theorem walkFn_file (fs : FileSystem) (rq : Request) (path : String) (info : FileInfo)
    (h : info.IsDir = false) :
    GatherFiles_walkFn fs rq path (some info) none =
      (rq.add (setFileAdds fs path), Outcome.nil) := by
  simp [GatherFiles_walkFn, h, setFile_eq_add]

theorem walkFn_err (fs : FileSystem) (rq : Request) (path : String) (info : Option FileInfo)
    (e : GoError) :
    GatherFiles_walkFn fs rq path info (some e) = (rq, Outcome.err e) := by
  simp [GatherFiles_walkFn]

theorem Framed.stop (o : Outcome) : Framed (fun rq => (rq, o)) := by
  intro rq
  simp [empty_held, add_none]

theorem Framed.add (d : Added) (o : Outcome) :
    Framed (fun rq => (rq.add d, o)) := by
  intro rq
  simp [empty_add_held]

/-- Running a framed step after a framed step is framed, whatever decides
from the first outcome whether the second step runs. -/
theorem Framed.seq {f g : Request → Request × Outcome} (hf : Framed f) (hg : Framed g)
    (go : Outcome → Bool) :
    Framed (fun rq => if go (f rq).2 then g (f rq).1 else f rq) := by
  intro rq
  have h1 := hf rq
  have h2 : (f rq).2 = (f Request.empty).2 := by rw [h1]
  have h3 : (f rq).1 = rq.add (f Request.empty).1.held := by rw [h1]
  simp only [h2]
  by_cases hgo : go (f Request.empty).2 = true
  · simp only [hgo, if_true]
    rw [h3, hg (rq.add _), hg (f Request.empty).1, add_add, add_held]
  · simp only [hgo]
    exact h1

end Upctl

namespace Upctl

mutual

theorem walk_framed (fs : FileSystem) (path : String) (info : FileInfo) :
    ∀ dir : DirListing, Framed (filepath_walk (GatherFiles_walkFn fs) path info dir)
  | DirListing.err e => by
    by_cases h : info.IsDir = true
    · have : filepath_walk (GatherFiles_walkFn fs) path info (DirListing.err e) =
          fun rq => (rq, Outcome.err (GoError.pathError e)) := by
        funext rq
        simp [filepath_walk, h, walkFn_err]
      rw [this]
      exact Framed.stop _
    · have h0 : info.IsDir = false := by simpa using h
      have : filepath_walk (GatherFiles_walkFn fs) path info (DirListing.err e) =
          fun rq => (rq.add (setFileAdds fs path), Outcome.nil) := by
        funext rq
        simp [filepath_walk, h0, walkFn_file]
      rw [this]
      exact Framed.add _ _
  | DirListing.names entries => by
    by_cases h : info.IsDir = true
    · have : filepath_walk (GatherFiles_walkFn fs) path info (DirListing.names entries) =
          filepath_walkNames (GatherFiles_walkFn fs) path entries := by
        funext rq
        simp [filepath_walk, h, walkFn_dir]
      rw [this]
      exact walkNames_framed fs path entries
    · have h0 : info.IsDir = false := by simpa using h
      have : filepath_walk (GatherFiles_walkFn fs) path info (DirListing.names entries) =
          fun rq => (rq.add (setFileAdds fs path), Outcome.nil) := by
        funext rq
        simp [filepath_walk, h0, walkFn_file]
      rw [this]
      exact Framed.add _ _

theorem walkNames_framed (fs : FileSystem) (path : String) :
    ∀ f : FsForest, Framed (filepath_walkNames (GatherFiles_walkFn fs) path f)
  | FsForest.nil => by
    have : filepath_walkNames (GatherFiles_walkFn fs) path FsForest.nil =
        fun rq => (rq, Outcome.nil) := by
      funext rq
      simp [filepath_walkNames]
    rw [this]
    exact Framed.stop _
  | FsForest.cons name (FsTree.lstatErr e) rest => by
    have : filepath_walkNames (GatherFiles_walkFn fs) path (FsForest.cons name (FsTree.lstatErr e) rest) =
        fun rq => (rq, Outcome.err (GoError.pathError e)) := by
      funext rq
      simp [filepath_walkNames, walkFn_err]
    rw [this]
    exact Framed.stop _
  | FsForest.cons name (FsTree.node info dir) rest => by
    have hw := walk_framed fs (filepath_Join path name) info dir
    have hr := walkNames_framed fs path rest
    have : filepath_walkNames (GatherFiles_walkFn fs) path (FsForest.cons name (FsTree.node info dir) rest) =
        fun rq =>
          if continuesAfterNode info
              (filepath_walk (GatherFiles_walkFn fs) (filepath_Join path name) info dir rq).2 then
            filepath_walkNames (GatherFiles_walkFn fs) path rest
              (filepath_walk (GatherFiles_walkFn fs) (filepath_Join path name) info dir rq).1
          else filepath_walk (GatherFiles_walkFn fs) (filepath_Join path name) info dir rq := by
      funext rq
      rw [filepath_walkNames]
      rcases hx : filepath_walk (GatherFiles_walkFn fs) (filepath_Join path name) info dir rq with ⟨s1, o⟩
      cases o with
      | nil => simp [continuesAfterNode]
      | err e1 =>
        by_cases hc : (!info.IsDir || e1 != GoError.SkipDir) = true
        · simp [continuesAfterNode, hc]
        · simp [continuesAfterNode, hc]
      | panic m => simp [continuesAfterNode]
    rw [this]
    exact Framed.seq hw hr _

end

end Upctl

namespace Upctl

/-- The run of `filepath.Walk` with the callback of `GatherFiles` is framed. -/
theorem Walk_framed (fs : FileSystem) (root : String) :
    Framed (filepath_Walk fs root (GatherFiles_walkFn fs)) := by
  unfold filepath_Walk
  cases ht : fs.Tree root with
  | lstatErr e =>
    intro rq
    simp [walkFn_err, add_none, empty_held]
  | node info dir =>
    intro rq
    have hw := walk_framed fs root info dir
    simp only
    rw [hw rq]
    rcases hx : filepath_walk (GatherFiles_walkFn fs) root info dir Request.empty with ⟨s1, o⟩
    cases o with
    | nil => simp
    | err e1 =>
      by_cases hc : (e1 = GoError.SkipDir || e1 = GoError.SkipAll) = true
      · simp only [hc, if_true]
      · simp only [hc]
        simp
    | panic m => simp

end Upctl

namespace Upctl

theorem GatherFiles_nil (fs : FileSystem) (rq : Request) :
    GatherFiles fs rq [] = (rq, Outcome.nil) := by
  simp [GatherFiles]

/-- The loop of `GatherFiles` unrolled once. -/
theorem GatherFiles_cons (fs : FileSystem) (rq : Request) (file : String) (rest : List String) :
    GatherFiles fs rq (file :: rest) =
      if continuesOnNil (loopBody fs file rq).2 then GatherFiles fs (loopBody fs file rq).1 rest
      else loopBody fs file rq := by
  rw [GatherFiles]
  unfold loopBody
  cases hs : os_Stat fs file with
  | mk info err =>
    simp only
    by_cases hne : os_IsNotExist err = true
    · simp only [hne, if_true]
      cases err with
      | none => simp [os_IsNotExist] at hne
      | some e => simp [Outcome.ofError, continuesOnNil]
    · simp only [hne]
      cases info with
      | none => simp [continuesOnNil]
      | some i =>
        by_cases hd : i.IsDir = true
        · simp only [hd, if_true]
          rcases hx : filepath_Walk fs file (GatherFiles_walkFn fs) rq with ⟨rq1, o⟩
          cases o <;> simp [continuesOnNil]
        · simp [hd, continuesOnNil]

theorem loopBody_framed (fs : FileSystem) (file : String) : Framed (loopBody fs file) := by
  unfold loopBody
  cases hs : os_Stat fs file with
  | mk info err =>
    simp only
    by_cases hne : os_IsNotExist err = true
    · simp only [hne, if_true]
      exact Framed.stop _
    · simp only [hne]
      cases info with
      | none => exact Framed.stop _
      | some i =>
        by_cases hd : i.IsDir = true
        · simp only [hd, if_true]
          exact Walk_framed fs file
        · have hfun : (fun rq : Request =>
              if os_IsNotExist err = true then (rq, Outcome.ofError err)
              else
                if i.IsDir = true then filepath_Walk fs file (GatherFiles_walkFn fs) rq
                else (({ rq with R := rq.R.SetFile fs "upload[]" file } : Request), Outcome.nil)) =
              fun rq => (rq.add (setFileAdds fs file), Outcome.nil) := by
            funext rq
            simp only [hne, hd]
            simp [setFile_eq_add]
          simp only [hne, hd] at hfun ⊢
          rw [hfun]
          exact Framed.add _ Outcome.nil

theorem GatherFiles_framed (fs : FileSystem) (args : List String) :
    Framed (fun rq => GatherFiles fs rq args) := by
  induction args with
  | nil =>
    have : (fun rq => GatherFiles fs rq []) = fun rq => (rq, Outcome.nil) := by
      funext rq
      exact GatherFiles_nil fs rq
    rw [this]
    exact Framed.stop _
  | cons file rest ih =>
    have : (fun rq => GatherFiles fs rq (file :: rest)) =
        fun rq => if continuesOnNil (loopBody fs file rq).2 then
          (fun rq1 => GatherFiles fs rq1 rest) (loopBody fs file rq).1
        else loopBody fs file rq := by
      funext rq
      exact GatherFiles_cons fs rq file rest
    rw [this]
    exact Framed.seq (loopBody_framed fs file) ih _

end Upctl

/-! ## Paths -/

theorem IsAbs_iff (p : String) : filepath_IsAbs p = true ↔ ∃ cs, p.data = Separator :: cs := by
  unfold filepath_IsAbs strings_HasPrefix
  cases h : p.data with
  | nil => simp [List.isPrefixOf]
  | cons c cs =>
    have hs : "/".data = [Separator] := rfl
    rw [hs]
    simp only [List.isPrefixOf, Bool.and_true, beq_iff_eq, List.cons.injEq, exists_eq_right']
    exact eq_comm

/-- A path that starts with another character than the separator is not
absolute. -/
theorem not_IsAbs_of_head (p : String) (c : Char) (cs : List Char) (h : p.data = c :: cs)
    (hc : c ≠ Separator) : filepath_IsAbs p = false := by
  cases hb : filepath_IsAbs p with
  | false => rfl
  | true =>
    obtain ⟨cs2, h2⟩ := (IsAbs_iff p).mp hb
    rw [h] at h2
    simp only [List.cons.injEq] at h2
    exact absurd h2.1 hc

/-- A non-empty path is absolute or starts with another character than the
separator. -/
theorem head_of_not_IsAbs (p : String) (hne : p ≠ "") (h : filepath_IsAbs p = false) :
    ∃ c cs, p.data = c :: cs ∧ c ≠ Separator := by
  cases hd : p.data with
  | nil =>
    exfalso
    apply hne
    cases p
    simp only at hd
    subst hd
    rfl
  | cons c cs =>
    refine ⟨c, cs, rfl, ?_⟩
    intro hc
    subst hc
    have := (IsAbs_iff p).mpr ⟨cs, hd⟩
    rw [h] at this
    cases this

theorem ne_empty_of_data (p : String) (c : Char) (cs : List Char) (h : p.data = c :: cs) :
    p ≠ "" := by
  intro hp
  subst hp
  simp at h

theorem splitPath_noSep : ∀ (cs : List Char), ∀ e ∈ splitPath cs, Separator ∉ e := by
  intro cs
  induction cs with
  | nil =>
    intro e he
    simp only [splitPath, List.mem_singleton] at he
    subst he
    simp
  | cons c cs ih =>
    intro e he
    unfold splitPath at he
    by_cases hc : (c == Separator) = true
    · simp only [hc, if_true, List.mem_cons] at he
      rcases he with he | he
      · subst he
        simp
      · exact ih e he
    · simp only [hc] at he
      have hne : c ≠ Separator := by simpa using hc
      cases hsp : splitPath cs with
      | nil =>
        rw [hsp] at he
        simp only [Bool.false_eq_true, if_false, List.mem_singleton] at he
        subst he
        simpa using hne.symm
      | cons e1 es =>
        rw [hsp] at he ih
        simp only [Bool.false_eq_true, if_false, List.mem_cons] at he
        rcases he with he | he
        · subst he
          have h1 := ih e1 (by simp)
          simp only [List.mem_cons, not_or]
          exact ⟨hne.symm, h1⟩
        · exact ih e (by simp [he])

/-- The elements `filepath.Clean` keeps are non-empty and free of separators. -/
theorem cleanElems_good (rooted : Bool) :
    ∀ (es stack : List (List Char)), (∀ e ∈ es, Separator ∉ e) →
      (∀ e ∈ stack, e ≠ [] ∧ Separator ∉ e) →
      ∀ e ∈ cleanElems rooted es stack, e ≠ [] ∧ Separator ∉ e := by
  intro es
  induction es with
  | nil =>
    intro stack _ hs e he
    simp only [cleanElems, List.mem_reverse] at he
    exact hs e he
  | cons e1 es ih =>
    intro stack hes hs e he
    have hes2 : ∀ e ∈ es, Separator ∉ e := fun e h => hes e (by simp [h])
    have he1 : Separator ∉ e1 := hes e1 (by simp)
    unfold cleanElems at he
    by_cases h1 : (e1 == [] || e1 == ['.']) = true
    · simp only [h1, if_true] at he
      exact ih stack hes2 hs e he
    · simp only [h1, Bool.false_eq_true, if_false] at he
      have hne1 : e1 ≠ [] := by
        intro h
        apply h1
        simp [h]
      have hpush : ∀ x ∈ e1 :: stack, x ≠ [] ∧ Separator ∉ x := by
        intro x hx
        simp only [List.mem_cons] at hx
        rcases hx with hx | hx
        · subst hx
          exact ⟨hne1, he1⟩
        · exact hs x hx
      by_cases h2 : (e1 == ['.', '.']) = true
      · simp only [h2, if_true] at he
        cases stack with
        | nil =>
          simp only at he
          cases rooted with
          | true =>
            simp only [if_true] at he
            exact ih [] hes2 (by simp) e he
          | false =>
            simp only [Bool.false_eq_true, if_false] at he
            exact ih [e1] hes2 (by simpa using hpush) e he
        | cons top below =>
          simp only at he
          by_cases h3 : (top == ['.', '.']) = true
          · simp only [h3, if_true] at he
            exact ih _ hes2 hpush e he
          · simp only [h3, Bool.false_eq_true, if_false] at he
            exact ih below hes2 (fun x hx => hs x (by simp [hx])) e he
      · simp only [h2, Bool.false_eq_true, if_false] at he
        exact ih _ hes2 hpush e he

theorem joinElems_head (e : List Char) (es : List (List Char)) (c : Char) (cs : List Char)
    (h : e = c :: cs) : ∃ cs2, joinElems (e :: es) = c :: cs2 := by
  subst h
  cases es with
  | nil => exact ⟨cs, rfl⟩
  | cons e2 rest => exact ⟨cs ++ Separator :: joinElems (e2 :: rest), rfl⟩

/-- Cleaning a path keeps it relative. -/
theorem Clean_rel (p : String) (c : Char) (cs : List Char) (h : p.data = c :: cs)
    (hc : c ≠ Separator) : filepath_IsAbs (filepath_Clean p) = false := by
  unfold filepath_Clean
  rw [h]
  have hcb : (c == Separator) = false := by simpa using hc
  simp only [hcb]
  have hgood := cleanElems_good false (splitPath (c :: cs)) [] (splitPath_noSep (c :: cs))
    (by simp)
  cases hce : cleanElems false (splitPath (c :: cs)) [] with
  | nil =>
    simp only [Bool.false_eq_true, if_false]
    decide
  | cons e es =>
    rw [hce] at hgood
    have he := hgood e (by simp)
    cases hd : e with
    | nil => exact absurd hd he.1
    | cons c1 cs1 =>
      obtain ⟨cs2, hj⟩ := joinElems_head e es c1 cs1 hd
      have hc1 : c1 ≠ Separator := by
        intro hx
        apply he.2
        rw [hd, hx]
        simp
      simp only [Bool.false_eq_true, if_false]
      rw [← hd]
      exact not_IsAbs_of_head _ c1 cs2 hj hc1

theorem Clean_abs (p : String) (h : filepath_IsAbs p = true) :
    filepath_IsAbs (filepath_Clean p) = true := by
  obtain ⟨cs, hcs⟩ := (IsAbs_iff p).mp h
  unfold filepath_Clean
  rw [hcs]
  simp only [beq_self_eq_true, if_true]
  exact (IsAbs_iff _).mpr ⟨_, rfl⟩

theorem Clean_ne_empty (p : String) : filepath_Clean p ≠ "" := by
  unfold filepath_Clean
  cases hd : p.data with
  | nil => decide
  | cons c cs =>
    simp only
    by_cases hc : (c == Separator) = true
    · simp only [hc, if_true]
      exact ne_empty_of_data _ Separator _ rfl
    · simp only [hc]
      have hgood := cleanElems_good false (splitPath (c :: cs)) [] (splitPath_noSep (c :: cs))
        (by simp)
      cases hce : cleanElems false (splitPath (c :: cs)) [] with
      | nil =>
        simp only [Bool.false_eq_true, if_false]
        decide
      | cons e es =>
        rw [hce] at hgood
        have he := hgood e (by simp)
        cases hd2 : e with
        | nil => exact absurd hd2 he.1
        | cons c1 cs1 =>
          obtain ⟨cs2, hj⟩ := joinElems_head e es c1 cs1 hd2
          simp only [Bool.false_eq_true, if_false]
          rw [← hd2]
          exact ne_empty_of_data _ c1 cs2 hj

/-- Joining a name to a non-empty path gives a non-empty path that is
absolute exactly when the path is. -/
theorem Join_kind (dir name : String) (hne : dir ≠ "") :
    filepath_Join dir name ≠ "" ∧
    filepath_IsAbs (filepath_Join dir name) = filepath_IsAbs dir := by
  have hlen : len dir ≠ 0 := fun h0 => hne ((len_eq_zero_iff dir).mp h0)
  have hj : filepath_Join dir name = filepath_Clean (dir ++ "/" ++ name) := by
    unfold filepath_Join
    simp [hlen]
  rw [hj]
  refine ⟨Clean_ne_empty _, ?_⟩
  cases hb : filepath_IsAbs dir with
  | true =>
    obtain ⟨cs, hcs⟩ := (IsAbs_iff dir).mp hb
    apply Clean_abs
    apply (IsAbs_iff _).mpr
    refine ⟨cs ++ "/".data ++ name.data, ?_⟩
    simp [String.data_append, hcs]
  | false =>
    obtain ⟨c, cs, hcs, hc⟩ := head_of_not_IsAbs dir hne hb
    apply Clean_rel _ c (cs ++ "/".data ++ name.data) _ hc
    simp [String.data_append, hcs]

theorem ne_empty_of_IsAbs (p : String) (h : filepath_IsAbs p = true) : p ≠ "" := by
  obtain ⟨cs, hcs⟩ := (IsAbs_iff p).mp h
  exact ne_empty_of_data p _ cs hcs

namespace Upctl

/-! ## Every entry is as absolute as the argument it comes from -/

theorem setFileAdds_files (fs : FileSystem) (path : String) :
    ∀ f ∈ (setFileAdds fs path).Files, f.2 = path := by
  intro f hf
  unfold setFileAdds at hf
  cases ho : fs.Open path with
  | some e => simp [ho] at hf
  | none =>
    cases hs : fs.Stat path with
    | error e => simp [ho, hs] at hf
    | ok i =>
      simp only [ho, hs, List.mem_singleton] at hf
      subst hf
      rfl

/-- A property of paths that holds for what the request holds and for the
path handed to `SetFile` holds for what the request holds afterwards. -/
theorem paths_add_setFile (fs : FileSystem) (P : String → Prop) (rq : Request) (path : String)
    (h1 : ∀ x ∈ rq.paths, P x) (h2 : P path) :
    ∀ x ∈ (rq.add (setFileAdds fs path)).paths, P x := by
  intro x hx
  simp only [Request.paths, add_files, List.map_append, List.mem_append, List.mem_map] at hx
  rcases hx with hx | ⟨y, hy, rfl⟩
  · exact h1 x (by simpa [Request.paths] using hx)
  · rw [setFileAdds_files fs path y hy]
    exact h2

mutual

theorem walk_inv (fs : FileSystem) (b : Bool) (P : String → Prop)
    (hK : ∀ x, x ≠ "" → filepath_IsAbs x = b → P x)
    (path : String) (info : FileInfo) (hp1 : path ≠ "") (hp2 : filepath_IsAbs path = b) :
    ∀ (dir : DirListing) (rq : Request), (∀ x ∈ rq.paths, P x) →
      ∀ x ∈ (filepath_walk (GatherFiles_walkFn fs) path info dir rq).1.paths, P x
  | DirListing.err e, rq, h => by
    by_cases hd : info.IsDir = true
    · simpa [filepath_walk, hd, walkFn_err] using h
    · have h0 : info.IsDir = false := by simpa using hd
      simp only [filepath_walk, h0, Bool.not_false, if_true, walkFn_file]
      exact paths_add_setFile fs P rq path h (hK path hp1 hp2)
  | DirListing.names entries, rq, h => by
    by_cases hd : info.IsDir = true
    · simp only [filepath_walk, hd, Bool.not_true, walkFn_dir]
      exact walkNames_inv fs b P hK path hp1 hp2 entries rq h
    · have h0 : info.IsDir = false := by simpa using hd
      simp only [filepath_walk, h0, Bool.not_false, if_true, walkFn_file]
      exact paths_add_setFile fs P rq path h (hK path hp1 hp2)

theorem walkNames_inv (fs : FileSystem) (b : Bool) (P : String → Prop)
    (hK : ∀ x, x ≠ "" → filepath_IsAbs x = b → P x)
    (path : String) (hp1 : path ≠ "") (hp2 : filepath_IsAbs path = b) :
    ∀ (f : FsForest) (rq : Request), (∀ x ∈ rq.paths, P x) →
      ∀ x ∈ (filepath_walkNames (GatherFiles_walkFn fs) path f rq).1.paths, P x
  | FsForest.nil, rq, h => by
    simpa [filepath_walkNames] using h
  | FsForest.cons name (FsTree.lstatErr e) rest, rq, h => by
    simpa [filepath_walkNames, walkFn_err] using h
  | FsForest.cons name (FsTree.node info dir) rest, rq, h => by
    have hj := Join_kind path name hp1
    have hw := walk_inv fs b P hK (filepath_Join path name) info hj.1 (hj.2.trans hp2) dir rq h
    rw [filepath_walkNames]
    rcases hx : filepath_walk (GatherFiles_walkFn fs) (filepath_Join path name) info dir rq
      with ⟨s1, o⟩
    rw [hx] at hw
    have hr := walkNames_inv fs b P hK path hp1 hp2 rest s1 hw
    cases o with
    | nil => simpa using hr
    | err e1 =>
      by_cases hc : (!info.IsDir || e1 != GoError.SkipDir) = true
      · simp only [hc, if_true]
        exact hw
      · simp only [hc]
        simpa using hr
    | panic m => simpa using hw

end

end Upctl

namespace Upctl

theorem Walk_inv (fs : FileSystem) (b : Bool) (P : String → Prop)
    (hK : ∀ x, x ≠ "" → filepath_IsAbs x = b → P x)
    (root : String) (hp1 : root ≠ "") (hp2 : filepath_IsAbs root = b)
    (rq : Request) (h : ∀ x ∈ rq.paths, P x) :
    ∀ x ∈ (filepath_Walk fs root (GatherFiles_walkFn fs) rq).1.paths, P x := by
  unfold filepath_Walk
  cases ht : fs.Tree root with
  | lstatErr e => simpa [walkFn_err] using h
  | node info dir =>
    have hw := walk_inv fs b P hK root info hp1 hp2 dir rq h
    simp only
    rcases hx : filepath_walk (GatherFiles_walkFn fs) root info dir rq with ⟨s1, o⟩
    rw [hx] at hw
    cases o with
    | nil => simpa using hw
    | err e1 =>
      by_cases hc : (e1 = GoError.SkipDir || e1 = GoError.SkipAll) = true
      · simp only [hc, if_true]
        exact hw
      · simp only [hc]
        simpa using hw
    | panic m => simpa using hw

theorem loopBody_inv (fs : FileSystem) (P : String → Prop) (file : String) (hne : file ≠ "")
    (hK : ∀ x, x ≠ "" → filepath_IsAbs x = filepath_IsAbs file → P x)
    (rq : Request) (h : ∀ x ∈ rq.paths, P x) :
    ∀ x ∈ (loopBody fs file rq).1.paths, P x := by
  unfold loopBody
  cases hs : os_Stat fs file with
  | mk info err =>
    simp only
    by_cases hn : os_IsNotExist err = true
    · simpa [hn] using h
    · simp only [hn]
      cases info with
      | none => simpa using h
      | some i =>
        by_cases hd : i.IsDir = true
        · simp only [hd, if_true]
          exact Walk_inv fs (filepath_IsAbs file) P hK file hne rfl rq h
        · simp only [hd]
          rw [setFile_eq_add]
          exact paths_add_setFile fs P rq file h (hK file hne rfl)

theorem GatherFiles_inv (fs : FileSystem) (P : String → Prop) (args : List String) :
    ∀ (rq : Request), (∀ a ∈ args, a ≠ "") →
      (∀ a ∈ args, ∀ x, x ≠ "" → filepath_IsAbs x = filepath_IsAbs a → P x) →
      (∀ x ∈ rq.paths, P x) →
      ∀ x ∈ (GatherFiles fs rq args).1.paths, P x := by
  induction args with
  | nil =>
    intro rq _ _ h
    simpa [GatherFiles_nil] using h
  | cons file rest ih =>
    intro rq hne hK h
    have hb := loopBody_inv fs P file (hne file (by simp)) (hK file (by simp)) rq h
    rw [GatherFiles_cons]
    by_cases hc : continuesOnNil (loopBody fs file rq).2 = true
    · simp only [hc, if_true]
      exact ih _ (fun a ha => hne a (by simp [ha])) (fun a ha => hK a (by simp [ha])) hb
    · simp only [hc]
      exact hb

theorem GatherFiles_abs (fs : FileSystem) (args : List String) (rq : Request)
    (hargs : ∀ a ∈ args, filepath_IsAbs a = true)
    (hrq : ∀ x ∈ rq.paths, filepath_IsAbs x = true) :
    ∀ x ∈ (GatherFiles fs rq args).1.paths, filepath_IsAbs x = true :=
  GatherFiles_inv fs (fun x => filepath_IsAbs x = true) args rq
    (fun a ha => ne_empty_of_IsAbs a (hargs a ha))
    (fun a ha _ _ hx => hx.trans (hargs a ha)) hrq

/-! ## Counting the entries -/

theorem setFileAdds_lengths (fs : FileSystem) (path : String) (info : FileInfo) :
    (setFileAdds fs path).Files.length = (if isAttachable fs path info then 1 else 0) ∧
    (setFileAdds fs path).Errors.length = (if isRefused fs path info then 1 else 0) := by
  unfold setFileAdds isAttachable isRefused attachable
  cases fs.Open path with
  | some e => simp
  | none =>
    cases fs.Stat path with
    | error e => simp
    | ok i => simp

mutual

theorem walk_count (fs : FileSystem) (path : String) (info : FileInfo) :
    ∀ (dir : DirListing) (rq : Request), cleanTree (FsTree.node info dir) = true →
      (filepath_walk (GatherFiles_walkFn fs) path info dir rq).2 = Outcome.nil ∧
      (filepath_walk (GatherFiles_walkFn fs) path info dir rq).1.R.Files.length =
        rq.R.Files.length + countTree (isAttachable fs) path (FsTree.node info dir) ∧
      (filepath_walk (GatherFiles_walkFn fs) path info dir rq).1.R.Errors.length =
        rq.R.Errors.length + countTree (isRefused fs) path (FsTree.node info dir)
  | DirListing.err e, rq, h => by
    by_cases hd : info.IsDir = true
    · simp [cleanTree, cleanListing, hd] at h
    · have h0 : info.IsDir = false := by simpa using hd
      have hl := setFileAdds_lengths fs path info
      simp only [filepath_walk, h0, Bool.not_false, if_true, walkFn_file, countTree,
        Bool.false_eq_true, if_false, Request.add, List.length_append, hl.1, hl.2]
      exact ⟨trivial, trivial, trivial⟩
  | DirListing.names entries, rq, h => by
    by_cases hd : info.IsDir = true
    · simp only [filepath_walk, hd, Bool.not_true, walkFn_dir]
      have hc : cleanForest entries = true := by simpa [cleanTree, cleanListing, hd] using h
      have := walkNames_count fs path entries rq hc
      simpa [countTree, countListing, hd] using this
    · have h0 : info.IsDir = false := by simpa using hd
      have hl := setFileAdds_lengths fs path info
      simp only [filepath_walk, h0, Bool.not_false, if_true, walkFn_file, countTree,
        Bool.false_eq_true, if_false, Request.add, List.length_append, hl.1, hl.2]
      exact ⟨trivial, trivial, trivial⟩

theorem walkNames_count (fs : FileSystem) (path : String) :
    ∀ (f : FsForest) (rq : Request), cleanForest f = true →
      (filepath_walkNames (GatherFiles_walkFn fs) path f rq).2 = Outcome.nil ∧
      (filepath_walkNames (GatherFiles_walkFn fs) path f rq).1.R.Files.length =
        rq.R.Files.length + countForest (isAttachable fs) path f ∧
      (filepath_walkNames (GatherFiles_walkFn fs) path f rq).1.R.Errors.length =
        rq.R.Errors.length + countForest (isRefused fs) path f
  | FsForest.nil, rq, _ => by
    simp [filepath_walkNames, countForest]
  | FsForest.cons name (FsTree.lstatErr e) rest, rq, h => by
    simp [cleanForest, cleanTree] at h
  | FsForest.cons name (FsTree.node info dir) rest, rq, h => by
    have hc : cleanTree (FsTree.node info dir) = true ∧ cleanForest rest = true := by
      simpa [cleanForest] using h
    have hw := walk_count fs (filepath_Join path name) info dir rq hc.1
    rw [filepath_walkNames]
    rcases hx : filepath_walk (GatherFiles_walkFn fs) (filepath_Join path name) info dir rq
      with ⟨s1, o⟩
    rw [hx] at hw
    have hr := walkNames_count fs path rest s1 hc.2
    obtain ⟨ho, hl, he⟩ := hw
    simp only at ho hl he
    subst ho
    simp only
    refine ⟨hr.1, ?_, ?_⟩
    · rw [hr.2.1, hl, countForest]
      omega
    · rw [hr.2.2, he, countForest]
      omega

end

theorem Walk_count (fs : FileSystem) (root : String) (rq : Request)
    (h : cleanTree (fs.Tree root) = true) :
    (filepath_Walk fs root (GatherFiles_walkFn fs) rq).2 = Outcome.nil ∧
    (filepath_Walk fs root (GatherFiles_walkFn fs) rq).1.R.Files.length =
      rq.R.Files.length + countTree (isAttachable fs) root (fs.Tree root) ∧
    (filepath_Walk fs root (GatherFiles_walkFn fs) rq).1.R.Errors.length =
      rq.R.Errors.length + countTree (isRefused fs) root (fs.Tree root) := by
  unfold filepath_Walk
  cases ht : fs.Tree root with
  | lstatErr e => simp [ht, cleanTree] at h
  | node info dir =>
    rw [ht] at h
    have hw := walk_count fs root info dir rq h
    simp only
    rcases hx : filepath_walk (GatherFiles_walkFn fs) root info dir rq with ⟨s1, o⟩
    rw [hx] at hw
    obtain ⟨ho, hl⟩ := hw
    simp only at ho hl
    subst ho
    exact ⟨rfl, hl⟩

theorem loopBody_count (fs : FileSystem) (file : String) (rq : Request)
    (h : argWalkable fs file = true) :
    (loopBody fs file rq).2 = Outcome.nil ∧
    (loopBody fs file rq).1.R.Files.length =
      rq.R.Files.length + reachableFrom (isAttachable fs) fs file ∧
    (loopBody fs file rq).1.R.Errors.length =
      rq.R.Errors.length + reachableFrom (isRefused fs) fs file := by
  unfold loopBody os_Stat reachableFrom
  unfold argWalkable at h
  cases hs : fs.Stat file with
  | error e => simp [hs] at h
  | ok i =>
    rw [hs] at h
    simp only [os_IsNotExist]
    by_cases hd : i.IsDir = true
    · simp only [hd, if_true] at h ⊢
      exact Walk_count fs file rq h
    · have hl := setFileAdds_lengths fs file i
      simp only [hd, Bool.false_eq_true, if_false, setFile_eq_add, Request.add,
        List.length_append, hl.1, hl.2]
      exact ⟨trivial, trivial, trivial⟩

end Upctl

namespace Upctl

/-! ## Argument lists: concatenation and order -/

theorem GatherFiles_paths (fs : FileSystem) (args : List String) (rq : Request) :
    (GatherFiles fs rq args).1.paths = rq.paths ++ entries fs args := by
  have h := GatherFiles_framed fs args rq
  simp only at h
  rw [h]
  simp [Request.paths, entries, add_files, Request.held]

theorem loopBody_outcome (fs : FileSystem) (file : String) (rq : Request) :
    (loopBody fs file rq).2 = (loopBody fs file Request.empty).2 := by
  rw [loopBody_framed fs file rq]

theorem continuesOnNil_iff (o : Outcome) : continuesOnNil o = true ↔ o = Outcome.nil := by
  cases o <;> simp [continuesOnNil]

/-- Collection returns nil exactly when the loop body returns nil for every
argument taken alone. -/
theorem GatherFiles_nil_iff (fs : FileSystem) (args : List String) :
    ∀ rq : Request, (GatherFiles fs rq args).2 = Outcome.nil ↔
      ∀ a ∈ args, (loopBody fs a Request.empty).2 = Outcome.nil := by
  induction args with
  | nil =>
    intro rq
    simp [GatherFiles_nil]
  | cons file rest ih =>
    intro rq
    rw [GatherFiles_cons]
    by_cases hc : continuesOnNil (loopBody fs file rq).2 = true
    · have h1 : (loopBody fs file Request.empty).2 = Outcome.nil := by
        rw [← loopBody_outcome fs file rq]
        exact (continuesOnNil_iff _).mp hc
      simp only [hc, if_true, List.mem_cons, forall_eq_or_imp, h1, true_and]
      exact ih _
    · have h1 : ¬ (loopBody fs file Request.empty).2 = Outcome.nil := by
        rw [← loopBody_outcome fs file rq]
        exact fun h => hc ((continuesOnNil_iff _).mpr h)
      have h2 : ¬ (loopBody fs file rq).2 = Outcome.nil :=
        fun h => hc ((continuesOnNil_iff _).mpr h)
      simp only [hc, List.mem_cons, forall_eq_or_imp, h1, false_and]
      simp [h2]

theorem loopBody_missing (fs : FileSystem) (file : String) (rq : Request)
    (h : argMissing fs file = true) : (loopBody fs file rq).2 ≠ Outcome.nil := by
  unfold argMissing at h
  unfold loopBody
  cases hs : os_Stat fs file with
  | mk info err =>
    rw [hs] at h
    simp only at h
    simp only [h, if_true]
    cases err with
    | none => simp [os_IsNotExist] at h
    | some e => simp [Outcome.ofError]

theorem GatherFiles_missing (fs : FileSystem) (args : List String) (rq : Request)
    (h : ∃ a ∈ args, argMissing fs a = true) : (GatherFiles fs rq args).2 ≠ Outcome.nil := by
  obtain ⟨a, ha, hm⟩ := h
  intro hnil
  exact loopBody_missing fs a Request.empty hm ((GatherFiles_nil_iff fs args rq).mp hnil a ha)

/-- Whether collection fails does not depend on the order of the arguments. -/
theorem GatherFiles_fails_perm (fs : FileSystem) (args1 args2 : List String) (rq1 rq2 : Request)
    (hp : args2.Perm args1) (h : (GatherFiles fs rq1 args1).2 ≠ Outcome.nil) :
    (GatherFiles fs rq2 args2).2 ≠ Outcome.nil := by
  intro hnil
  apply h
  rw [GatherFiles_nil_iff] at hnil ⊢
  intro a ha
  exact hnil a (hp.mem_iff.mpr ha)

/-- When collection does not return nil, `Upload` does nothing but return. -/
theorem Upload_of_collection_failure (fs : FileSystem) (net : Network) (VERSION : String)
    (c : Config) (args : List String)
    (h : (GatherFiles fs (Setup VERSION c "/file/") args).2 ≠ Outcome.nil) :
    Upload fs net VERSION c args =
      { Stdout := [], Requests := [],
        Result := (GatherFiles fs (Setup VERSION c "/file/") args).2 } := by
  rcases hx : GatherFiles fs (Setup VERSION c "/file/") args with ⟨rq1, o⟩
  rw [hx] at h
  cases o with
  | nil => simp at h
  | err e => simp only [Upload, hx]
  | panic m => simp only [Upload, hx]

end Upctl

namespace Upctl

/-- When collection returns nil and the library could attach every file,
`Upload` sends exactly one request: a POST to the endpoint followed by
`/file/`, carrying the collected entries and the expire directive as form
data. -/
theorem Upload_posts_once (fs : FileSystem) (net : Network) (VERSION : String)
    (c : Config) (args : List String)
    (h : (GatherFiles fs (Setup VERSION c "/file/") args).2 = Outcome.nil)
    (he : (GatherFiles fs (Setup VERSION c "/file/") args).1.R.Errors = []) :
    ∃ call : HttpCall,
      (Upload fs net VERSION c args).Requests = [call] ∧
      call.Method = "POST" ∧ call.Url = c.Endpoint ++ "/file/" ∧
      call.Request.Files.map Prod.snd = entries fs args ∧
      call.Request.FormData = [("expire", c.Expire)] := by
  have hp := GatherFiles_paths fs args (Setup VERSION c "/file/")
  have hf := GatherFiles_framed fs args (Setup VERSION c "/file/")
  simp only at hf
  rcases hx : GatherFiles fs (Setup VERSION c "/file/") args with ⟨rq1, o⟩
  rw [hx] at h hp hf he
  simp only at h he
  subst h
  have hurl : rq1.Url = c.Endpoint ++ "/file/" := by
    have := congrArg (fun p => p.1.Url) hf
    simpa [Request.add, Setup] using this
  have hfiles : rq1.R.Files.map Prod.snd = entries fs args := by
    have h0 : (Setup VERSION c "/file/").paths = [] := by
      simp only [Request.paths, Setup, ReqRequest.fresh]
      split_ifs <;> rfl
    rw [h0] at hp
    simpa [Request.paths] using hp
  have hform : (Setup VERSION c "/file/").R.FormData = [] := by
    simp only [Setup, ReqRequest.fresh]
    split_ifs <;> rfl
  have hform1 : rq1.R.FormData = [] := by
    have := congrArg (fun p => p.1.R.FormData) hf
    simpa [Request.add, hform] using this
  refine ⟨{ Method := "POST", Url := rq1.Url,
            Request := (rq1.R.SetFormData [("expire", c.Expire)]).SetUploadCallbackWithInterval 10 },
    ?_, rfl, hurl, ?_, ?_⟩
  · simp only [Upload, hx, ReqRequest.Send, ReqRequest.SetFormData,
      ReqRequest.SetUploadCallbackWithInterval, he, List.isEmpty_nil, if_true]
    split <;> rfl
  · simpa [ReqRequest.SetFormData, ReqRequest.SetUploadCallbackWithInterval] using hfiles
  · simp [ReqRequest.SetFormData, ReqRequest.SetUploadCallbackWithInterval, hform1]

/-- When collection returns nil but the library could not attach some file,
`Upload` sends no request and returns the errors the request kept. -/
theorem Upload_of_refused_file (fs : FileSystem) (net : Network) (VERSION : String)
    (c : Config) (args : List String)
    (h : (GatherFiles fs (Setup VERSION c "/file/") args).2 = Outcome.nil)
    (he : (GatherFiles fs (Setup VERSION c "/file/") args).1.R.Errors ≠ []) :
    Upload fs net VERSION c args =
      { Stdout := [""], Requests := [],
        Result := Outcome.err (GoError.requestErrors
          (GatherFiles fs (Setup VERSION c "/file/") args).1.R.Errors) } := by
  rcases hx : GatherFiles fs (Setup VERSION c "/file/") args with ⟨rq1, o⟩
  rw [hx] at h he
  simp only at h he
  subst h
  have hemp : rq1.R.Errors.isEmpty = false := by
    cases hl : rq1.R.Errors with
    | nil => exact absurd hl he
    | cons e es => rfl
  simp [Upload, hx, ReqRequest.Send, ReqRequest.SetFormData,
    ReqRequest.SetUploadCallbackWithInterval, hemp]

end Upctl

namespace Upctl

/-! ## Where `GatherFiles` panics and where it cannot -/

mutual

theorem walk_no_panic (fs : FileSystem) (path : String) (info : FileInfo) :
    ∀ (dir : DirListing) (rq : Request) (m : String),
      (filepath_walk (GatherFiles_walkFn fs) path info dir rq).2 ≠ Outcome.panic m
  | DirListing.err e, rq, m => by
    by_cases hd : info.IsDir = true
    · simp [filepath_walk, hd, walkFn_err]
    · have h0 : info.IsDir = false := by simpa using hd
      simp [filepath_walk, h0, walkFn_file]
  | DirListing.names entries, rq, m => by
    by_cases hd : info.IsDir = true
    · simp only [filepath_walk, hd, Bool.not_true, walkFn_dir]
      exact walkNames_no_panic fs path entries rq m
    · have h0 : info.IsDir = false := by simpa using hd
      simp [filepath_walk, h0, walkFn_file]

theorem walkNames_no_panic (fs : FileSystem) (path : String) :
    ∀ (f : FsForest) (rq : Request) (m : String),
      (filepath_walkNames (GatherFiles_walkFn fs) path f rq).2 ≠ Outcome.panic m
  | FsForest.nil, rq, m => by
    simp [filepath_walkNames]
  | FsForest.cons name (FsTree.lstatErr e) rest, rq, m => by
    simp [filepath_walkNames, walkFn_err]
  | FsForest.cons name (FsTree.node info dir) rest, rq, m => by
    have hw := walk_no_panic fs (filepath_Join path name) info dir rq
    rw [filepath_walkNames]
    rcases hx : filepath_walk (GatherFiles_walkFn fs) (filepath_Join path name) info dir rq with ⟨s1, o⟩
    rw [hx] at hw
    have hr := walkNames_no_panic fs path rest s1 m
    cases o with
    | nil => simpa using hr
    | err e1 =>
      by_cases hc : (!info.IsDir || e1 != GoError.SkipDir) = true
      · simp only [hc, if_true]
        simp
      · simp only [hc]
        simpa using hr
    | panic m1 => exact absurd rfl (hw m1)

end

theorem Walk_no_panic (fs : FileSystem) (root : String) (rq : Request) (m : String) :
    (filepath_Walk fs root (GatherFiles_walkFn fs) rq).2 ≠ Outcome.panic m := by
  unfold filepath_Walk
  cases ht : fs.Tree root with
  | lstatErr e => simp [walkFn_err]
  | node info dir =>
    have hw := walk_no_panic fs root info dir rq
    simp only
    rcases hx : filepath_walk (GatherFiles_walkFn fs) root info dir rq with ⟨s1, o⟩
    rw [hx] at hw
    cases o with
    | nil => simp
    | err e1 =>
      by_cases hc : (e1 = GoError.SkipDir || e1 = GoError.SkipAll) = true
      · simp only [hc, if_true]
        simp
      · simp only [hc]
        simp
    | panic m1 => exact absurd rfl (hw m1)

/-- The loop body panics exactly when `os.Stat` fails with an error other
than `ENOENT`. -/
theorem loopBody_panic_iff (fs : FileSystem) (file : String) (rq : Request) :
    (∃ m, (loopBody fs file rq).2 = Outcome.panic m) ↔
      ∃ e, fs.Stat file = Except.error e ∧ e.Err ≠ Errno.ENOENT := by
  unfold loopBody os_Stat
  cases hs : fs.Stat file with
  | error e =>
    by_cases he : e.Err = Errno.ENOENT
    · simp [os_IsNotExist, he, Outcome.ofError]
    · simp [os_IsNotExist, he]
  | ok i =>
    simp only [os_IsNotExist]
    by_cases hd : i.IsDir = true
    · simp only [hd, if_true]
      constructor
      · rintro ⟨m, hm⟩
        exact absurd hm (Walk_no_panic fs file rq m)
      · rintro ⟨e, he, _⟩
        cases he
    · simp [hd]

/-- For every file system, request and argument list: if `os.Stat` of the
first argument fails with an error other than `ENOENT`, `GatherFiles` panics
with a nil pointer dereference. -/
theorem GatherFiles_panics_of_stat_error (fs : FileSystem) (rq : Request) (file : String)
    (rest : List String) (e : PathError) (hs : fs.Stat file = Except.error e)
    (he : e.Err ≠ Errno.ENOENT) :
    GatherFiles fs rq (file :: rest) = (rq, Outcome.panic nilDereference) := by
  rw [GatherFiles]
  simp [os_Stat, hs, os_IsNotExist, he]

/-- When every failing `os.Stat` fails with `ENOENT`, `GatherFiles` returns
nil or an error. -/
theorem GatherFiles_no_panic (fs : FileSystem) (args : List String) :
    ∀ (rq : Request), (∀ a ∈ args, ∀ e, fs.Stat a = Except.error e → e.Err = Errno.ENOENT) →
      ∀ m, (GatherFiles fs rq args).2 ≠ Outcome.panic m := by
  induction args with
  | nil =>
    intro rq _ m
    simp [GatherFiles_nil]
  | cons file rest ih =>
    intro rq h m
    rw [GatherFiles_cons]
    have hb : ∀ m, (loopBody fs file rq).2 ≠ Outcome.panic m := by
      intro m1 hm
      obtain ⟨e, he1, he2⟩ := (loopBody_panic_iff fs file rq).mp ⟨m1, hm⟩
      exact he2 (h file (by simp) e he1)
    by_cases hc : continuesOnNil (loopBody fs file rq).2 = true
    · simp only [hc, if_true]
      exact ih _ (fun a ha => h a (by simp [ha])) m
    · simp only [hc]
      exact hb m

end Upctl

namespace Upctl

/-! ## A walk that meets an error returns it -/

mutual

theorem walk_err_of_unclean (fs : FileSystem) (path : String) (info : FileInfo) :
    ∀ (dir : DirListing) (rq : Request), cleanTree (FsTree.node info dir) = false →
      ∃ e, (filepath_walk (GatherFiles_walkFn fs) path info dir rq).2 =
        Outcome.err (GoError.pathError e)
  | DirListing.err e, rq, h => by
    by_cases hd : info.IsDir = true
    · exact ⟨e, by simp [filepath_walk, hd, walkFn_err]⟩
    · simp [cleanTree, hd] at h
  | DirListing.names entries, rq, h => by
    by_cases hd : info.IsDir = true
    · simp only [filepath_walk, hd, Bool.not_true, walkFn_dir]
      have hc : cleanForest entries = false := by simpa [cleanTree, cleanListing, hd] using h
      exact walkNames_err_of_unclean fs path entries rq hc
    · simp [cleanTree, hd] at h

theorem walkNames_err_of_unclean (fs : FileSystem) (path : String) :
    ∀ (f : FsForest) (rq : Request), cleanForest f = false →
      ∃ e, (filepath_walkNames (GatherFiles_walkFn fs) path f rq).2 =
        Outcome.err (GoError.pathError e)
  | FsForest.nil, rq, h => by
    simp [cleanForest] at h
  | FsForest.cons name (FsTree.lstatErr e) rest, rq, _ => by
    exact ⟨e, by simp [filepath_walkNames, walkFn_err]⟩
  | FsForest.cons name (FsTree.node info dir) rest, rq, h => by
    rw [filepath_walkNames]
    by_cases hc : cleanTree (FsTree.node info dir) = true
    · have hw := walk_count fs (filepath_Join path name) info dir rq hc
      have hrest : cleanForest rest = false := by
        simpa [cleanForest, hc] using h
      rcases hx : filepath_walk (GatherFiles_walkFn fs) (filepath_Join path name) info dir rq
        with ⟨s1, o⟩
      rw [hx] at hw
      obtain ⟨ho, _⟩ := hw
      simp only at ho
      subst ho
      exact walkNames_err_of_unclean fs path rest s1 hrest
    · have hc0 : cleanTree (FsTree.node info dir) = false := by simpa using hc
      obtain ⟨e, he⟩ := walk_err_of_unclean fs (filepath_Join path name) info dir rq hc0
      rcases hx : filepath_walk (GatherFiles_walkFn fs) (filepath_Join path name) info dir rq
        with ⟨s1, o⟩
      rw [hx] at he
      simp only at he
      subst he
      exact ⟨e, by simp⟩

end

theorem Walk_err_of_unclean (fs : FileSystem) (root : String) (rq : Request)
    (h : cleanTree (fs.Tree root) = false) :
    ∃ e, (filepath_Walk fs root (GatherFiles_walkFn fs) rq).2 = Outcome.err (GoError.pathError e) := by
  unfold filepath_Walk
  cases ht : fs.Tree root with
  | lstatErr e => exact ⟨e, by simp [walkFn_err]⟩
  | node info dir =>
    rw [ht] at h
    obtain ⟨e, he⟩ := walk_err_of_unclean fs root info dir rq h
    simp only
    rcases hx : filepath_walk (GatherFiles_walkFn fs) root info dir rq with ⟨s1, o⟩
    rw [hx] at he
    simp only at he
    subst he
    exact ⟨e, by simp⟩

/-- The loop body returns nil for an argument exactly when the argument
exists and, if it is a directory, walking it meets no error. -/
theorem loopBody_nil_iff (fs : FileSystem) (file : String) (rq : Request) :
    (loopBody fs file rq).2 = Outcome.nil ↔ argWalkable fs file = true := by
  constructor
  · intro h
    by_contra hw
    have hw0 : argWalkable fs file = false := by simpa using hw
    unfold argWalkable at hw0
    unfold loopBody os_Stat at h
    cases hs : fs.Stat file with
    | error e =>
      rw [hs] at h
      by_cases he : e.Err = Errno.ENOENT
      · simp [os_IsNotExist, he, Outcome.ofError] at h
      · simp [os_IsNotExist, he] at h
    | ok i =>
      rw [hs] at h hw0
      simp only [os_IsNotExist] at h
      by_cases hd : i.IsDir = true
      · simp only [hd, if_true] at h hw0
        obtain ⟨e, he⟩ := Walk_err_of_unclean fs file rq hw0
        simp only [Bool.false_eq_true, if_false] at h
        rw [he] at h
        cases h
      · simp [hd] at hw0
  · intro h
    exact (loopBody_count fs file rq h).1

/-- Collection returns nil exactly when every argument exists and no walk
meets an error. -/
theorem GatherFiles_nil_iff_walkable (fs : FileSystem) (args : List String) (rq : Request) :
    (GatherFiles fs rq args).2 = Outcome.nil ↔ ∀ a ∈ args, argWalkable fs a = true := by
  rw [GatherFiles_nil_iff]
  constructor
  · intro h a ha
    exact (loopBody_nil_iff fs a Request.empty).mp (h a ha)
  · intro h a ha
    exact (loopBody_nil_iff fs a Request.empty).mpr (h a ha)

end Upctl

/-! ## Claims about file collection and upload -/

namespace Upctl

/-- When collection does not return nil (some argument does not exist, the
walk of some directory argument meets an error, or `os.Stat` fails in
another way), `Upload` ends as `GatherFiles` ended, prints nothing and sends
no request; this holds for every ordering of the arguments. -/
theorem Upload_collection_failure_sends_nothing (fs : FileSystem) (net : Network)
    (VERSION : String) (c : Config) (args : List String)
    (h : (∃ a ∈ args, argMissing fs a = true) ∨
      (∃ a ∈ args, ∃ info, fs.Stat a = Except.ok info ∧ info.IsDir = true ∧
        cleanTree (fs.Tree a) = false) ∨
      (GatherFiles fs (Setup VERSION c "/file/") args).2 ≠ Outcome.nil) :
    ∀ args2 : List String, args2.Perm args →
      (GatherFiles fs (Setup VERSION c "/file/") args2).2 ≠ Outcome.nil ∧
      Upload fs net VERSION c args2 =
        { Stdout := [], Requests := [],
          Result := (GatherFiles fs (Setup VERSION c "/file/") args2).2 } := by
  have hfail : (GatherFiles fs (Setup VERSION c "/file/") args).2 ≠ Outcome.nil := by
    rcases h with h | ⟨a, ha, info, hs, hd, hc⟩ | h
    · exact GatherFiles_missing fs args _ h
    · intro hnil
      have hw := (GatherFiles_nil_iff_walkable fs args _).mp hnil a ha
      simp [argWalkable, hs, hd, hc] at hw
    · exact h
  intro args2 hp
  have h2 := GatherFiles_fails_perm fs args args2 _ (Setup VERSION c "/file/") hp hfail
  exact ⟨h2, Upload_of_collection_failure fs net VERSION c args2 h2⟩

/-- When no `os.Stat` fails with an error other than `ENOENT`, a failing
collection makes `Upload` return the error `GatherFiles` returned, without
output and without a request. -/
theorem Upload_returns_collection_error (fs : FileSystem) (net : Network)
    (VERSION : String) (c : Config) (args : List String)
    (hstat : ∀ a ∈ args, ∀ e, fs.Stat a = Except.error e → e.Err = Errno.ENOENT)
    (h : (GatherFiles fs (Setup VERSION c "/file/") args).2 ≠ Outcome.nil) :
    ∃ e, (GatherFiles fs (Setup VERSION c "/file/") args).2 = Outcome.err e ∧
      Upload fs net VERSION c args =
        { Stdout := [], Requests := [], Result := Outcome.err e } := by
  have hu := Upload_of_collection_failure fs net VERSION c args h
  have hp := GatherFiles_no_panic fs args (Setup VERSION c "/file/") hstat
  cases ho : (GatherFiles fs (Setup VERSION c "/file/") args).2 with
  | nil => exact absurd ho h
  | err e =>
    refine ⟨e, rfl, ?_⟩
    rw [hu, ho]
  | panic m => exact absurd ho (hp m)

/-- Evaluations of `Upload` on failing collections: an existing file and a
missing one in both orders, and an existing file followed by a directory
that cannot be read. -/
theorem Upload_collection_failure_examples :
    Upload Example.fs Example.net "v0.0.1" Example.conf ["missing", "a.txt"] =
      { Stdout := [], Requests := [],
        Result := Outcome.err
          (GoError.pathError { Op := "stat", Path := "missing", Err := Errno.ENOENT }) } ∧
    Upload Example.fs Example.net "v0.0.1" Example.conf ["a.txt", "missing"] =
      { Stdout := [], Requests := [],
        Result := Outcome.err
          (GoError.pathError { Op := "stat", Path := "missing", Err := Errno.ENOENT }) } ∧
    Upload Example.fs Example.net "v0.0.1" Example.conf ["a.txt", "locked"] =
      { Stdout := [], Requests := [],
        Result := Outcome.err
          (GoError.pathError { Op := "open", Path := "locked", Err := Errno.EACCES }) } := by
  decide

/-- C4 fails on the code: the argument list holds the missing path
`missing`, so file collection fails, but `os.Stat` of the argument before it
fails with `ENOTDIR`; `GatherFiles` panics on the nil file info there and
`Upload` ends in that panic instead of returning the collection error.  No
request is sent.  With the two arguments in the other order `Upload` does
return the not-exist error, so the result depends on the order. -/
theorem Upload_panics_before_missing_argument :
    argMissing Example.fs "missing" = true ∧
    Upload Example.fs Example.net "v0.0.1" Example.conf ["/etc/passwd/x", "missing"] =
      { Stdout := [], Requests := [], Result := Outcome.panic nilDereference } ∧
    Upload Example.fs Example.net "v0.0.1" Example.conf ["missing", "/etc/passwd/x"] =
      { Stdout := [], Requests := [],
        Result := Outcome.err
          (GoError.pathError { Op := "stat", Path := "missing", Err := Errno.ENOENT }) } := by
  decide

end Upctl

namespace Upctl

/-- C7 as stated fails: for the relative arguments `a.txt` and `d`
collection succeeds and attaches the relative paths `a.txt`, `d/a.txt` and
`d/link`, none of which is absolute. -/
theorem GatherFiles_keeps_relative_paths :
    (GatherFiles Example.fs Request.empty ["a.txt", "d"]).2 = Outcome.nil ∧
    entries Example.fs ["a.txt", "d"] = ["a.txt", "d/a.txt", "d/link"] ∧
    (entries Example.fs ["a.txt", "d"]).map filepath_IsAbs = [false, false, false] := by
  decide

/-- C7, amended: every entry `GatherFiles` attaches is as absolute as the
arguments.  When every argument is an absolute path every entry is an
absolute path; when every argument is a non-empty relative path every entry
is a relative path; and for every list of non-empty arguments each entry
has the same absoluteness as some argument of the list. -/
theorem GatherFiles_entries_as_absolute_as_arguments (fs : FileSystem) (rq : Request)
    (args : List String) :
    ((∀ a ∈ args, filepath_IsAbs a = true) → (∀ x ∈ rq.paths, filepath_IsAbs x = true) →
      ∀ x ∈ (GatherFiles fs rq args).1.paths, filepath_IsAbs x = true) ∧
    ((∀ a ∈ args, filepath_IsAbs a = true) →
      ∀ x ∈ entries fs args, filepath_IsAbs x = true) ∧
    ((∀ a ∈ args, a ≠ "" ∧ filepath_IsAbs a = false) →
      ∀ x ∈ entries fs args, filepath_IsAbs x = false) ∧
    ((∀ a ∈ args, a ≠ "") →
      ∀ x ∈ entries fs args, ∃ a ∈ args, filepath_IsAbs x = filepath_IsAbs a) := by
  have hempty : ∀ (P : String → Prop), ∀ x ∈ Request.empty.paths, P x := by
    intro P x hx
    simp [Request.paths, Request.empty, ReqRequest.fresh] at hx
  refine ⟨?_, ?_, ?_, ?_⟩
  · intro hargs hrq
    exact GatherFiles_abs fs args rq hargs hrq
  · intro hargs
    exact GatherFiles_abs fs args Request.empty hargs (hempty _)
  · intro hargs
    exact GatherFiles_inv fs (fun x => filepath_IsAbs x = false) args Request.empty
      (fun a ha => (hargs a ha).1) (fun a ha _ _ hx => hx.trans (hargs a ha).2) (hempty _)
  · intro hne
    exact GatherFiles_inv fs (fun x => ∃ a ∈ args, filepath_IsAbs x = filepath_IsAbs a) args
      Request.empty hne (fun a ha _ _ hx => ⟨a, ha, hx⟩) (hempty _)

/-- C7 amended, at concrete inputs: an absolute file and an absolute
directory give absolute entries, a relative file and a relative directory
give relative entries. -/
theorem GatherFiles_entries_as_absolute_as_arguments_witness :
    entries Example.fs ["/etc/passwd", "/srv/d"] =
      ["/etc/passwd", "/srv/d/a.txt", "/srv/d/link"] ∧
    (∀ x ∈ entries Example.fs ["/etc/passwd", "/srv/d"], filepath_IsAbs x = true) ∧
    entries Example.fs ["a.txt", "d"] = ["a.txt", "d/a.txt", "d/link"] ∧
    (∀ x ∈ entries Example.fs ["a.txt", "d"], filepath_IsAbs x = false) :=
  ⟨by decide,
    (GatherFiles_entries_as_absolute_as_arguments Example.fs Request.empty
      ["/etc/passwd", "/srv/d"]).2.1 (by decide),
    by decide,
    (GatherFiles_entries_as_absolute_as_arguments Example.fs Request.empty
      ["a.txt", "d"]).2.2.1 (by decide)⟩

/-- C9 fails on the code: `os.Stat` of `/etc/passwd/x` fails with `ENOTDIR`,
which is not a not-exist error, so `GatherFiles` goes on to call `IsDir` on
the nil file info and panics; `Upload` ends the same way. -/
theorem GatherFiles_panics_on_other_stat_error :
    os_Stat Example.fs "/etc/passwd/x" =
      (none, some (GoError.pathError
        { Op := "stat", Path := "/etc/passwd/x", Err := Errno.ENOTDIR })) ∧
    GatherFiles Example.fs Request.empty ["/etc/passwd/x"] =
      (Request.empty, Outcome.panic nilDereference) ∧
    (Upload Example.fs Example.net "v0.0.1" Example.conf ["/etc/passwd/x"]).Result =
      Outcome.panic nilDereference := by
  decide

end Upctl

/-! ## Claims about response handling -/

namespace Upctl

theorem decodeEnvelope_of_decoded (resp : ReqResponse) (r : Response)
    (h : json_Unmarshal resp.Body Response.zero = (r, none)) : decodeEnvelope resp = r := by
  simp [decodeEnvelope, h]

theorem decodeEnvelope_of_error (resp : ReqResponse) (r : Response) (e : GoError)
    (h : json_Unmarshal resp.Body Response.zero = (r, some e)) :
    decodeEnvelope resp = { r with Message := resp.Body } := by
  simp [decodeEnvelope, h]

/-- A body that is not JSON at all leaves the envelope at its zero value, so
the raw body becomes the message of a failed envelope. -/
theorem decodeEnvelope_of_syntax_error (resp : ReqResponse)
    (h : GoJson.parse resp.Body = none) :
    decodeEnvelope resp = { Code := 0, Success := false, Message := resp.Body } := by
  simp [decodeEnvelope, json_Unmarshal, h, Response.zero]

/-- What `HandleResponse` does with a failed envelope. -/
theorem HandleResponse_of_failure (c : Config) (resp : ReqResponse)
    (h : (decodeEnvelope resp).Success = false) :
    HandleResponse c resp =
      (debugTrace c resp,
       some (if (decodeEnvelope resp).Message = "" then
               (match resp.Err with
                | some e => e
                | none => GoError.errorsNew "Unknown error")
             else GoError.errorsNew (decodeEnvelope resp).Message)) := by
  unfold HandleResponse
  simp only [h, Bool.not_false, if_true]
  by_cases hm : (decodeEnvelope resp).Message = ""
  · have h0 : len (decodeEnvelope resp).Message = 0 := (len_eq_zero_iff _).mpr hm
    simp only [h0, beq_self_eq_true, if_true, hm]
    cases resp.Err <;> rfl
  · have h0 : ¬ len (decodeEnvelope resp).Message = 0 := fun h0 => hm ((len_eq_zero_iff _).mp h0)
    simp [h0, hm]

/-- C1: when the envelope `HandleResponse` works with (the decoded body, or
the raw body as message after a decoding error) has `Success` false, the
returned error is never nil: it is `errors.New` of the message when the
message is not empty, even if the response carries a transport error;
otherwise the transport error `resp.Err` itself when there is one; otherwise
`errors.New("Unknown error")`.  Nothing but the debug trace is printed. -/
theorem HandleResponse_failure_precedence (c : Config) (resp : ReqResponse)
    (h : (decodeEnvelope resp).Success = false) :
    (HandleResponse c resp).2 ≠ none ∧
    ((decodeEnvelope resp).Message ≠ "" →
      (HandleResponse c resp).2 = some (GoError.errorsNew (decodeEnvelope resp).Message)) ∧
    ((decodeEnvelope resp).Message = "" → ∀ e, resp.Err = some e →
      (HandleResponse c resp).2 = some e) ∧
    ((decodeEnvelope resp).Message = "" → resp.Err = none →
      (HandleResponse c resp).2 = some (GoError.errorsNew "Unknown error")) ∧
    (HandleResponse c resp).1 = debugTrace c resp ∧
    (∀ r, json_Unmarshal resp.Body Response.zero = (r, none) → decodeEnvelope resp = r) := by
  have hr := HandleResponse_of_failure c resp h
  refine ⟨?_, ?_, ?_, ?_, ?_, ?_⟩
  · rw [hr]
    simp
  · intro hm
    rw [hr]
    simp [hm]
  · intro hm e he
    rw [hr]
    simp [hm, he]
  · intro hm he
    rw [hr]
    simp [hm, he]
  · rw [hr]
  · intro r hdec
    exact decodeEnvelope_of_decoded resp r hdec

/-- C1 at the inputs of the specification: a failed envelope with a message
(and a transport error present), with an empty message and a transport
error, and with an empty message and no transport error. -/
theorem HandleResponse_failure_precedence_witness :
    (HandleResponse Example.conf
      (Example.response Example.quotaBody (some (GoError.transport "timeout")))).2 =
        some (GoError.errorsNew "quota exceeded") ∧
    (HandleResponse Example.conf
      (Example.response Example.emptyFailureBody (some (GoError.transport "timeout")))).2 =
        some (GoError.transport "timeout") ∧
    (HandleResponse Example.conf (Example.response Example.emptyFailureBody none)).2 =
        some (GoError.errorsNew "Unknown error") := by
  have h1 := HandleResponse_failure_precedence Example.conf
    (Example.response Example.quotaBody (some (GoError.transport "timeout"))) (by decide)
  have h2 := HandleResponse_failure_precedence Example.conf
    (Example.response Example.emptyFailureBody (some (GoError.transport "timeout"))) (by decide)
  have h3 := HandleResponse_failure_precedence Example.conf
    (Example.response Example.emptyFailureBody none) (by decide)
  exact ⟨(h1.2.1 (by decide)).trans (by decide), h2.2.2.1 (by decide) _ rfl,
    h3.2.2.2.1 (by decide) rfl⟩

/-- C2 fails on the code: the body with `success` true and a string in
`code` does not decode (`json.Unmarshal` returns a type error), yet the field
`Success` was already stored, so `HandleResponse` prints the raw body and
returns nil instead of an error. -/
theorem HandleResponse_reports_success_for_mistyped_body :
    json_Unmarshal Example.mistypedBody Response.zero =
      ({ Code := 0, Success := true, Message := "" },
       some (GoError.jsonUnmarshalType "string")) ∧
    decodeEnvelope (Example.response Example.mistypedBody none) =
      { Code := 0, Success := true, Message := Example.mistypedBody } ∧
    HandleResponse Example.conf (Example.response Example.mistypedBody none) =
      ([Example.mistypedBody], none) := by
  decide

/-- The part of C2 the code keeps: when decoding returns an error and has
not stored a true `success`, a non-empty raw body is the message of the
returned error.  Bodies that are no JSON text at all are always of this
kind. -/
theorem HandleResponse_of_undecodable (c : Config) (resp : ReqResponse) (r : Response)
    (e : GoError) (hdec : json_Unmarshal resp.Body Response.zero = (r, some e))
    (hs : r.Success = false) (hb : resp.Body ≠ "") :
    HandleResponse c resp = (debugTrace c resp, some (GoError.errorsNew resp.Body)) := by
  have henv := decodeEnvelope_of_error resp r e hdec
  have hf : (decodeEnvelope resp).Success = false := by rw [henv]; exact hs
  have hm : (decodeEnvelope resp).Message = resp.Body := by rw [henv]
  rw [HandleResponse_of_failure c resp hf, hm]
  simp [hb]

theorem HandleResponse_of_syntax_error (c : Config) (resp : ReqResponse)
    (hp : GoJson.parse resp.Body = none) (hb : resp.Body ≠ "") :
    HandleResponse c resp = (debugTrace c resp, some (GoError.errorsNew resp.Body)) := by
  apply HandleResponse_of_undecodable c resp Response.zero GoError.jsonSyntax _ rfl hb
  simp [json_Unmarshal, hp]

/-- C3: when the body decodes without error into an envelope whose `Success`
is true, `HandleResponse` returns nil and prints, after the debug trace if
any, exactly the message of the envelope; the message may be empty, and
neither `Code` nor a transport error on the response matters. -/
theorem HandleResponse_success (c : Config) (resp : ReqResponse) (r : Response)
    (hdec : json_Unmarshal resp.Body Response.zero = (r, none)) (hs : r.Success = true) :
    HandleResponse c resp = (debugTrace c resp ++ [r.Message], none) := by
  have henv := decodeEnvelope_of_decoded resp r hdec
  unfold HandleResponse
  simp [henv, hs]

/-- C3 at concrete inputs: the successful envelope of the specification,
and a successful envelope with an empty message, another code and a
transport error on the response. -/
theorem HandleResponse_success_witness :
    HandleResponse Example.conf (Example.response Example.okBody none) = (["ok"], none) ∧
    HandleResponse Example.conf
      (Example.response "\x7b\"code\":500,\"success\":true,\"message\":\"\"\x7d"
        (some (GoError.transport "timeout"))) = ([""], none) :=
  ⟨HandleResponse_success Example.conf (Example.response Example.okBody none)
      { Code := 200, Success := true, Message := "ok" } (by decide) rfl,
   HandleResponse_success Example.conf
      (Example.response "\x7b\"code\":500,\"success\":true,\"message\":\"\"\x7d"
        (some (GoError.transport "timeout")))
      { Code := 500, Success := true, Message := "" } (by decide) rfl⟩

/-! ## Claims about the commands -/

/-- C8: for the upload and the describe command alike, an empty argument
list gives an argument error, no event (neither the assignment to
`SilenceUsage` nor a workflow call), no output and no request, and the
command is unchanged; a non-empty list first sets `SilenceUsage` to true,
then calls the workflow with the arguments, and the result of the command is
the result of the workflow. -/
theorem RunE_checks_arguments_then_silences_usage (fs : FileSystem) (net : Network)
    (VERSION : String) (Describe : Config → List String → Run) (conf : Config)
    (cmd : CobraCommand) (args : List String) :
    UploadCommand_RunE fs net VERSION conf cmd args =
      (if args = [] then
        { Cmd := cmd, Events := [],
          Run := { Stdout := [], Requests := [],
                   Result := Outcome.err (GoError.errorsNew "No files specified to upload!") } }
       else
        { Cmd := { SilenceUsage := true },
          Events := [CmdEvent.setSilenceUsage true, CmdEvent.workflow "lib.Upload" args],
          Run := Upload fs net VERSION conf args }) ∧
    DescribeCommand_RunE Describe conf cmd args =
      (if args = [] then
        { Cmd := cmd, Events := [],
          Run := { Stdout := [], Requests := [],
                   Result := Outcome.err (GoError.errorsNew "No id specified to delete!") } }
       else
        { Cmd := { SilenceUsage := true },
          Events := [CmdEvent.setSilenceUsage true, CmdEvent.workflow "lib.Describe" args],
          Run := Describe conf args }) := by
  cases args with
  | nil => exact ⟨rfl, rfl⟩
  | cons a rest => exact ⟨rfl, rfl⟩

end Upctl

namespace Upctl

/-- C8 at concrete inputs: both commands without arguments, the upload
command with one existing file (one POST, the message of the service is
printed) and the describe command with one identifier. -/
theorem RunE_checks_arguments_then_silences_usage_witness :
    UploadCommand_RunE Example.fs Example.net "v0.0.1" Example.conf Example.cmd [] =
      { Cmd := { SilenceUsage := false }, Events := [],
        Run := { Stdout := [], Requests := [],
                 Result := Outcome.err (GoError.errorsNew "No files specified to upload!") } } ∧
    DescribeCommand_RunE Example.describeWorkflow Example.conf Example.cmd [] =
      { Cmd := { SilenceUsage := false }, Events := [],
        Run := { Stdout := [], Requests := [],
                 Result := Outcome.err (GoError.errorsNew "No id specified to delete!") } } ∧
    (UploadCommand_RunE Example.fs Example.net "v0.0.1" Example.conf Example.cmd ["a.txt"]).Cmd =
      { SilenceUsage := true } ∧
    (UploadCommand_RunE Example.fs Example.net "v0.0.1" Example.conf Example.cmd ["a.txt"]).Run =
      Upload Example.fs Example.net "v0.0.1" Example.conf ["a.txt"] ∧
    (Upload Example.fs Example.net "v0.0.1" Example.conf ["a.txt"]).Stdout = ["", "ok"] ∧
    (Upload Example.fs Example.net "v0.0.1" Example.conf ["a.txt"]).Result = Outcome.nil ∧
    DescribeCommand_RunE Example.describeWorkflow Example.conf Example.cmd ["id1"] =
      { Cmd := { SilenceUsage := true },
        Events := [CmdEvent.setSilenceUsage true, CmdEvent.workflow "lib.Describe" ["id1"]],
        Run := { Stdout := ["id1"], Requests := [], Result := Outcome.nil } } := by
  have h0 := RunE_checks_arguments_then_silences_usage Example.fs Example.net "v0.0.1"
    Example.describeWorkflow Example.conf Example.cmd []
  have h1 := RunE_checks_arguments_then_silences_usage Example.fs Example.net "v0.0.1"
    Example.describeWorkflow Example.conf Example.cmd ["a.txt"]
  have h2 := RunE_checks_arguments_then_silences_usage Example.fs Example.net "v0.0.1"
    Example.describeWorkflow Example.conf Example.cmd ["id1"]
  refine ⟨h0.1.trans (by decide), h0.2.trans (by decide), ?_, ?_, by decide, by decide,
    h2.2.trans (by decide)⟩
  · rw [h1.1]
    rfl
  · rw [h1.1]
    rfl

/-- The scenario of the specification: uploading a directory that holds two
entries with the expire directive `1h` sends one POST to the upload endpoint
with exactly two file fields and `expire` set to `1h`. -/
theorem Upload_directory_scenario :
    (Upload Example.fs Example.net "v0.0.1" Example.conf ["d"]).Requests.map
        (fun call => (call.Method, call.Url, call.Request.Files, call.Request.FormData)) =
      [("POST", "http://localhost:8080/api/file/",
        [("upload[]", "d/a.txt"), ("upload[]", "d/link")], [("expire", "1h")])] := by
  decide

end Upctl
